import Mathlib

/-!
Verification of the p2p connection-lifecycle orchestration library.

The development shallowly embeds the two orchestrators of the repository,
`Sender` (src/sender.js) and `Receiver` (src/receiver.js), as deterministic
step functions over explicit state.  Each driver-delivered signaling message,
each connect-timer expiry, each engine ICE-state report, and each discovery
ping tick is one atomic input; a step returns the successor state together
with the list of observable effects it performs, in program order: driver
emissions, dispatched events, timer arming and clearing, channel and engine
closes, and engine candidate applications.

Modelling conventions:
* peer ids, credentials, session descriptions and ICE candidates are opaque
  naturals;
* JavaScript `Map` objects become association lists with `Map.get`, `Map.set`
  and `Map.delete` mirrored by `lookupK`, `setK` and `eraseK` (insertion
  order preserving, as in JS);
* the connection engine (RTCPeerConnection) is an external collaborator; its
  fallible operations `setRemoteDescription` and `addIceCandidate` are
  modelled by boolean oracles in `Engine`, while `createOffer`,
  `createAnswer` and `setLocalDescription` are modelled as succeeding;
  a closed engine handle reports no further state changes, so ICE inputs
  only act on connections still present in the registry;
* each admitted connection receives a fresh token (`nextToken`) so that
  notifications can be attributed to one particular Connection object even
  after the same peer id is re-admitted later.

The queue-carrying `Sender` variant (with `queueSize` and a per-connection
outbound `queue`, flushed on data-channel open) is embedded separately as
`qsend` / `qflushOpen` / `qsendAll`.
-/

namespace P2P

abbrev PeerId := Nat
abbrev Cred := Nat
abbrev Desc := Nat
abbrev Cand := Nat

/-- Association-list counterpart of JavaScript `Map.prototype.get`. -/
def lookupK {α : Type} (id : PeerId) : List (PeerId × α) → Option α
  | [] => none
  | (k, v) :: rest => if k = id then some v else lookupK id rest

/-- Association-list counterpart of JavaScript `Map.prototype.set`:
replaces in place, or appends at the end when the key is absent. -/
def setK {α : Type} (id : PeerId) (v : α) : List (PeerId × α) → List (PeerId × α)
  | [] => [(id, v)]
  | (k, w) :: rest => if k = id then (k, v) :: rest else (k, w) :: setK id v rest

/-- Association-list counterpart of JavaScript `Map.prototype.delete`. -/
def eraseK {α : Type} (id : PeerId) : List (PeerId × α) → List (PeerId × α)
  | [] => []
  | (k, w) :: rest => if k = id then eraseK id rest else (k, w) :: eraseK id rest

/-- Errors surfaced by the lifecycle code: the connect-timeout error, the
ICE-failure error, and any error thrown by an engine operation. -/
inductive Err where
  | timeout
  | iceFailed
  | engine
deriving DecidableEq, Repr

/-- Observable effects of one handler step, in program order.
Driver emissions carry their destination (`none` marks the room-wide
broadcast address); dispatched events carry the peer id and the admission
token of the Connection they concern. -/
inductive Out where
  | msgInvoke (dst : Option PeerId)
  | msgOffer (dst : PeerId)
  | msgAnswer (dst : PeerId)
  | msgDispose (dst : PeerId)
  | evConnect (id : PeerId) (tok : Nat)
  | evDispose (id : PeerId) (tok : Nat) (err : Option Err)
  | evError (id : PeerId) (err : Err)
  | armTimer (id : PeerId) (tok : Nat)
  | clearTimer (tok : Nat)
  | closeChannels (tok : Nat)
  | closePeer (tok : Nat)
  | applyCand (tok : Nat) (c : Cand)
deriving DecidableEq, Repr

/-- Incoming signaling messages (section 4.1 vocabulary), tagged with the
remote peer id found in the message's `id` field. -/
inductive Msg where
  | invoke (src : PeerId) (cred : Cred)
  | offer (src : PeerId) (d : Desc)
  | answer (src : PeerId) (d : Desc)
  | candidate (src : PeerId) (c : Cand)
  | sync (src : PeerId) (st : Nat)
  | dispose (src : PeerId)
deriving DecidableEq, Repr

/-- Engine oracle: outcome of `setRemoteDescription` on a given description
and of `addIceCandidate` on a given candidate (`false` means the call
throws). -/
structure Engine where
  srdOk : Desc → Bool
  candOk : Cand → Bool

/-- Effects of applying the candidates of a drained buffer (or a directly
applied candidate) in order: each candidate is handed to the engine; a
rejected one surfaces as a non-fatal `error` event and the loop continues. -/
def drainOuts (eng : Engine) (tok : Nat) (id : PeerId) : List Cand → List Out
  | [] => []
  | c :: rest =>
    Out.applyCand tok c ::
      (if eng.candOk c then drainOuts eng tok id rest
       else Out.evError id Err.engine :: drainOuts eng tok id rest)

/-- ICE connection states the lifecycle code reacts to. -/
inductive IceSt where
  | connected
  | disconnected
  | failed
deriving DecidableEq, Repr

/-! ## Sender (src/sender.js) -/

/-- Sender configuration: own id, `connectionTimeout` (seconds; a timer is
armed only when strictly positive) and the optional `verify` gate. -/
structure SCfg where
  selfId : PeerId
  connectionTimeout : Int
  verify : Option (PeerId → Cred → Bool)

/-- Observable bits of one Sender-side connection record. -/
structure SConn where
  token : Nat
  timerArmed : Bool
  connected : Bool
  remoteSet : Bool
deriving DecidableEq, Repr

/-- Sender state: the connection registry, the early-candidate buffers, and
the fresh-token source. -/
structure SState where
  connections : List (PeerId × SConn)
  candidateQueues : List (PeerId × List Cand)
  nextToken : Nat
deriving DecidableEq, Repr

def SState.init : SState := { connections := [], candidateQueues := [], nextToken := 0 }

/-- Effects of the Sender `conn.dispose` closure, in program order:
clear the connect timer, (delete from the registry,) close the data
channels, close the engine handle, emit a `dispose` message to the remote
peer, dispatch the local `dispose` event.  The closure has no
double-invocation guard, and this model reproduces that. -/
def senderDisposeOuts (id : PeerId) (c : SConn) (err : Option Err) : List Out :=
  [Out.clearTimer c.token, Out.closeChannels c.token, Out.closePeer c.token,
   Out.msgDispose id, Out.evDispose id c.token err]

/-- The Sender `conn.dispose` closure. -/
def senderDispose (s : SState) (id : PeerId) (c : SConn) (err : Option Err) :
    SState × List Out :=
  ({ s with connections := eraseK id s.connections }, senderDisposeOuts id c err)

/-- The `verify` gate of the Sender invoke branch: absent means accept. -/
def senderVerifyOk (cfg : SCfg) (id : PeerId) (cred : Cred) : Bool :=
  match cfg.verify with
  | none => true
  | some v => v id cred

/-- Admission of a new Sender-side connection (invoke branch body): the
record enters the registry, the connect timer is armed when
`connectionTimeout` is positive, the offer is built (modelled as
succeeding) and emitted to the requester. -/
def senderAdmit (cfg : SCfg) (s : SState) (id : PeerId) : SState × List Out :=
  let t := s.nextToken
  let arm := decide (0 < cfg.connectionTimeout)
  let conn : SConn := { token := t, timerArmed := arm, connected := false, remoteSet := false }
  ({ s with connections := setK id conn s.connections, nextToken := t + 1 },
   (if arm then [Out.armTimer id t] else []) ++ [Out.msgOffer id])

/-- The Sender message handler.  Branches exist for `invoke`, `answer` and
`candidate` only; every other message type falls through and is ignored,
exactly as in src/sender.js. -/
def senderHandleMsg (cfg : SCfg) (eng : Engine) (s : SState) : Msg → SState × List Out
  | Msg.invoke id cred =>
    if id = cfg.selfId then (s, [])
    else if (lookupK id s.connections).isSome then (s, [])
    else if senderVerifyOk cfg id cred then senderAdmit cfg s id
    else (s, [])
  | Msg.answer id d =>
    if id = cfg.selfId then (s, [])
    else
      match lookupK id s.connections with
      | none => (s, [])
      | some c =>
        if eng.srdOk d then
          let s1 := { s with connections := setK id { c with remoteSet := true } s.connections }
          match lookupK id s1.candidateQueues with
          | some q =>
            ({ s1 with candidateQueues := eraseK id s1.candidateQueues },
             drainOuts eng c.token id q)
          | none => (s1, [])
        else senderDispose s id c (some Err.engine)
  | Msg.candidate id cand =>
    if id = cfg.selfId then (s, [])
    else
      match lookupK id s.connections with
      | none =>
        let q := (lookupK id s.candidateQueues).getD [] ++ [cand]
        ({ s with candidateQueues := setK id q s.candidateQueues }, [])
      | some c =>
        (s, Out.applyCand c.token cand ::
            (if eng.candOk cand then [] else [Out.evError id Err.engine]))
  | _ => (s, [])

/-- Inputs driving a started Sender. -/
inductive SIn where
  | msg (m : Msg)
  | timerFire (id : PeerId) (tok : Nat)
  | ice (id : PeerId) (tok : Nat) (st : IceSt)
deriving DecidableEq, Repr

/-- One atomic Sender step.  A connect timer fires only while still armed
(`clearTimeout` prevents anything else); a closed engine handle reports no
ICE transitions, so ICE inputs act only on registered connections whose
token matches. -/
def senderStep (cfg : SCfg) (eng : Engine) (s : SState) : SIn → SState × List Out
  | SIn.msg m => senderHandleMsg cfg eng s m
  | SIn.timerFire id tok =>
    match lookupK id s.connections with
    | none => (s, [])
    | some c =>
      if c.token = tok then
        if c.timerArmed then senderDispose s id c (some Err.timeout) else (s, [])
      else (s, [])
  | SIn.ice id tok st =>
    match lookupK id s.connections with
    | none => (s, [])
    | some c =>
      if c.token = tok then
        match st with
        | IceSt.connected =>
          let conns := setK id { c with timerArmed := false, connected := true } s.connections
          ({ s with connections := conns }, [Out.clearTimer tok, Out.evConnect id tok])
        | IceSt.disconnected => senderDispose s id c none
        | IceSt.failed => senderDispose s id c (some Err.iceFailed)
      else (s, [])

/-- Run a Sender over a list of inputs, concatenating the effects. -/
def senderRun (cfg : SCfg) (eng : Engine) (s : SState) : List SIn → SState × List Out
  | [] => (s, [])
  | i :: rest =>
    let p := senderStep cfg eng s i
    let p2 := senderRun cfg eng p.1 rest
    (p2.1, p.2 ++ p2.2)

/-! ## Receiver (src/receiver.js) -/

/-- Receiver configuration: own id, `connectionTimeout` and `pingAttempts`. -/
structure RCfg where
  selfId : PeerId
  connectionTimeout : Int
  pingAttempts : Nat

/-- Observable bits of one Receiver-side connection record. -/
structure RConn where
  token : Nat
  timerArmed : Bool
  connected : Bool
deriving DecidableEq, Repr

/-- Receiver state: registry, candidate buffers, fresh-token source, and the
decaying re-broadcast counter of the discovery-ping timer. -/
structure RState where
  connections : List (PeerId × RConn)
  candidateQueues : List (PeerId × List Cand)
  nextToken : Nat
  ping : Nat
deriving DecidableEq, Repr

def RState.init : RState :=
  { connections := [], candidateQueues := [], nextToken := 0, ping := 0 }

/-- Effects of the Receiver `conn.dispose` closure, in program order: clear
the timer, (delete from the registry,) close channels, close the engine
handle, dispatch the local `dispose` event.  Unlike the Sender closure it
emits nothing on the driver. -/
def receiverDisposeOuts (id : PeerId) (c : RConn) (err : Option Err) : List Out :=
  [Out.clearTimer c.token, Out.closeChannels c.token, Out.closePeer c.token,
   Out.evDispose id c.token err]

/-- The Receiver `conn.dispose` closure. -/
def receiverDispose (s : RState) (id : PeerId) (c : RConn) (err : Option Err) :
    RState × List Out :=
  ({ s with connections := eraseK id s.connections }, receiverDisposeOuts id c err)

/-- Admission of a Receiver-side connection (offer branch body): register the
record, arm the timer when configured, apply the remote description; on
success drain the candidate buffer (deleting it) and answer; on failure the
catch clause finds the registered record and disposes it with the error. -/
def receiverAdmit (cfg : RCfg) (eng : Engine) (s : RState) (id : PeerId) (d : Desc) :
    RState × List Out :=
  let t := s.nextToken
  let arm := decide (0 < cfg.connectionTimeout)
  let conn : RConn := { token := t, timerArmed := arm, connected := false }
  let s1 : RState :=
    { s with connections := setK id conn s.connections, nextToken := t + 1 }
  let armOuts := if arm then [Out.armTimer id t] else []
  if eng.srdOk d then
    match lookupK id s1.candidateQueues with
    | some q =>
      ({ s1 with candidateQueues := eraseK id s1.candidateQueues },
       armOuts ++ drainOuts eng t id q ++ [Out.msgAnswer id])
    | none => (s1, armOuts ++ [Out.msgAnswer id])
  else
    let p := receiverDispose s1 id conn (some Err.engine)
    (p.1, armOuts ++ p.2)

/-- The Receiver message handler.  Branches exist for `invoke`, `offer`,
`candidate` and `dispose`; everything else is ignored, exactly as in
src/receiver.js.  Note that the invoke branch answers with a targeted
`invoke` of its own whenever no connection exists yet for the peer. -/
def receiverHandleMsg (cfg : RCfg) (eng : Engine) (s : RState) : Msg → RState × List Out
  | Msg.invoke id _ =>
    if id = cfg.selfId then (s, [])
    else if (lookupK id s.connections).isSome then (s, [])
    else (s, [Out.msgInvoke (some id)])
  | Msg.offer id d =>
    if id = cfg.selfId then (s, [])
    else if (lookupK id s.connections).isSome then (s, [])
    else receiverAdmit cfg eng s id d
  | Msg.candidate id cand =>
    if id = cfg.selfId then (s, [])
    else
      match lookupK id s.connections with
      | none =>
        let q := (lookupK id s.candidateQueues).getD [] ++ [cand]
        ({ s with candidateQueues := setK id q s.candidateQueues }, [])
      | some c =>
        (s, Out.applyCand c.token cand ::
            (if eng.candOk cand then [] else [Out.evError id Err.engine]))
  | Msg.dispose id =>
    if id = cfg.selfId then (s, [])
    else
      match lookupK id s.connections with
      | none => (s, [])
      | some c => receiverDispose s id c none
  | _ => (s, [])

/-- One tick of the Receiver discovery-ping interval: while at least one
connection is registered the decaying counter is reloaded to
`pingAttempts`; an `invoke` broadcast goes out exactly when the counter is
positive, consuming one unit. -/
def receiverPingTick (cfg : RCfg) (s : RState) : RState × List Out :=
  let p := if 0 < s.connections.length then cfg.pingAttempts else s.ping
  if 0 < p then ({ s with ping := p - 1 }, [Out.msgInvoke none])
  else ({ s with ping := p }, [])

/-- Inputs driving a started Receiver. -/
inductive RIn where
  | msg (m : Msg)
  | timerFire (id : PeerId) (tok : Nat)
  | ice (id : PeerId) (tok : Nat) (st : IceSt)
  | pingTick
deriving DecidableEq, Repr

/-- One atomic Receiver step. -/
def receiverStep (cfg : RCfg) (eng : Engine) (s : RState) : RIn → RState × List Out
  | RIn.msg m => receiverHandleMsg cfg eng s m
  | RIn.timerFire id tok =>
    match lookupK id s.connections with
    | none => (s, [])
    | some c =>
      if c.token = tok then
        if c.timerArmed then receiverDispose s id c (some Err.timeout) else (s, [])
      else (s, [])
  | RIn.ice id tok st =>
    match lookupK id s.connections with
    | none => (s, [])
    | some c =>
      if c.token = tok then
        match st with
        | IceSt.connected =>
          let conns := setK id { c with timerArmed := false, connected := true } s.connections
          ({ s with connections := conns }, [Out.clearTimer tok, Out.evConnect id tok])
        | IceSt.disconnected => receiverDispose s id c none
        | IceSt.failed => receiverDispose s id c (some Err.iceFailed)
      else (s, [])
  | RIn.pingTick => receiverPingTick cfg s

/-- Run a Receiver over a list of inputs, concatenating the effects. -/
def receiverRun (cfg : RCfg) (eng : Engine) (s : RState) : List RIn → RState × List Out
  | [] => (s, [])
  | i :: rest =>
    let p := receiverStep cfg eng s i
    let p2 := receiverRun cfg eng p.1 rest
    (p2.1, p.2 ++ p2.2)

/-! ## Outbound data queue (queue-carrying Sender variant) -/

/-- Per-connection outbound state of the queue-carrying Sender: whether the
data channel has opened, and the pending queue. -/
structure QConn where
  channelOpen : Bool
  queue : List Nat
deriving DecidableEq, Repr

/-- One `send` on one connection: an open channel transmits directly;
otherwise the payload is appended and, when the queue then exceeds
`queueSize`, the front (oldest) entry is shifted off.  Returns the new
connection state and the payloads put on the wire by this call. -/
def qsend (queueSize : Nat) (conn : QConn) (d : Nat) : QConn × List Nat :=
  if conn.channelOpen then (conn, [d])
  else
    let q := conn.queue ++ [d]
    ({ conn with queue := if queueSize < q.length then q.drop 1 else q }, [])

/-- The data-channel open listener: flushes the whole queue onto the wire in
order, leaving it empty, with the channel now open. -/
def qflushOpen (conn : QConn) : QConn × List Nat :=
  ({ channelOpen := true, queue := [] }, conn.queue)

/-- A sequence of `send` calls on one connection. -/
def qsendAll (queueSize : Nat) (conn : QConn) : List Nat → QConn × List Nat
  | [] => (conn, [])
  | d :: rest =>
    let p := qsend queueSize conn d
    let p2 := qsendAll queueSize p.1 rest
    (p2.1, p.2 ++ p2.2)

/-! ## Projections and counters over effect lists -/

/-- The candidate applications contained in an effect list, in order. -/
def applyCands : List Out → List (Nat × Cand)
  | [] => []
  | Out.applyCand t c :: rest => (t, c) :: applyCands rest
  | _ :: rest => applyCands rest

/-- Count the effects satisfying a predicate. -/
def countP (p : Out → Bool) : List Out → Nat
  | [] => 0
  | o :: rest => (if p o then 1 else 0) + countP p rest

/-- Recognizer for a `dispose` event concerning peer `id`. -/
def isEvDispose (id : PeerId) : Out → Bool
  | Out.evDispose i _ _ => i = id
  | _ => false

/-- Recognizer for a `dispose` driver message addressed to peer `id`. -/
def isMsgDispose (id : PeerId) : Out → Bool
  | Out.msgDispose i => i = id
  | _ => false

/-- Recognizer for an offer emission addressed to peer `id`. -/
def isMsgOffer (id : PeerId) : Out → Bool
  | Out.msgOffer i => i = id
  | _ => false

/-- Recognizer for an answer emission addressed to peer `id`. -/
def isMsgAnswer (id : PeerId) : Out → Bool
  | Out.msgAnswer i => i = id
  | _ => false

/-- Recognizer for the room-wide `invoke` broadcast. -/
def isBroadcastInvoke : Out → Bool
  | Out.msgInvoke none => true
  | _ => false

/-- Recognizer for any driver emission (as opposed to local effects). -/
def isDriverMsg : Out → Bool
  | Out.msgInvoke _ => true
  | Out.msgOffer _ => true
  | Out.msgAnswer _ => true
  | Out.msgDispose _ => true
  | _ => false

/-- Recognizer for a `connect` event carrying admission token `tok`. -/
def isConnectTok (tok : Nat) : Out → Bool
  | Out.evConnect _ t => t = tok
  | _ => false

/-- Recognizer for a `dispose` event carrying a timeout error. -/
def isTimeoutDispose : Out → Bool
  | Out.evDispose _ _ (some Err.timeout) => true
  | _ => false

/-- Recognizer for a timer-arming effect. -/
def isArmTimer : Out → Bool
  | Out.armTimer _ _ => true
  | _ => false

/-- Tokens of the connections currently registered in a Sender state. -/
def sTokens (s : SState) : List Nat := s.connections.map (fun p => p.2.token)

/-- Tokens of the connections currently registered in a Receiver state. -/
def rTokens (s : RState) : List Nat := s.connections.map (fun p => p.2.token)

/-- Registry token bound: every registered connection was minted below
`nextToken`. -/
def STokensBound (s : SState) : Prop :=
  ∀ p ∈ s.connections, p.2.token < s.nextToken

/-- Registry token bound for the Receiver. -/
def RTokensBound (s : RState) : Prop :=
  ∀ p ∈ s.connections, p.2.token < s.nextToken

/-! ## Concrete fixtures for witnesses and counterexamples -/

/-- A Sender configuration with no verify gate and the default timeout. -/
def cfgEx : SCfg := { selfId := 0, connectionTimeout := 30, verify := none }

/-- A Sender configuration with a non-positive connection timeout. -/
def cfgNoTimeout : SCfg := { selfId := 0, connectionTimeout := 0, verify := none }

/-- A Receiver configuration with the default timeout and ping attempts. -/
def rcfgEx : RCfg := { selfId := 0, connectionTimeout := 30, pingAttempts := 10 }

/-- A Receiver configuration with a non-positive connection timeout. -/
def rcfgNoTimeout : RCfg := { selfId := 0, connectionTimeout := 0, pingAttempts := 10 }

/-- An engine that accepts every description and every candidate. -/
def engEx : Engine := { srdOk := fun _ => true, candOk := fun _ => true }

/-- An engine that accepts descriptions but rejects every candidate. -/
def engRej : Engine := { srdOk := fun _ => true, candOk := fun _ => false }

/-- A registered Sender-side connection with an armed connect timer. -/
def sconnEx : SConn := { token := 0, timerArmed := true, connected := false, remoteSet := false }

/-- A Sender state holding one connection, for peer 1. -/
def sStateEx : SState :=
  { connections := [(1, sconnEx)], candidateQueues := [], nextToken := 1 }

/-- A registered Receiver-side connection with an armed connect timer. -/
def rconnEx : RConn := { token := 0, timerArmed := true, connected := false }

/-- A Receiver state holding one connection, for peer 1. -/
def rStateEx : RState :=
  { connections := [(1, rconnEx)], candidateQueues := [], nextToken := 1, ping := 0 }

/-! ## Association-list lemmas -/

@[simp]
theorem lookupK_setK_self {α : Type} (id : PeerId) (v : α) (l : List (PeerId × α)) :
    lookupK id (setK id v l) = some v := by
  induction l with
  | nil => simp [setK, lookupK]
  | cons hd tl ih =>
    by_cases h : hd.1 = id
    · simp [setK, lookupK, h]
    · simpa [setK, lookupK, h] using ih

theorem lookupK_setK_ne {α : Type} {id j : PeerId} (h : id ≠ j) (v : α)
    (l : List (PeerId × α)) : lookupK j (setK id v l) = lookupK j l := by
  induction l with
  | nil => simp [setK, lookupK, h]
  | cons hd tl ih =>
    by_cases hk : hd.1 = id
    · simp [setK, lookupK, hk, h]
    · by_cases hj : hd.1 = j
      · simp [setK, lookupK, hk, hj, Ne.symm h]
      · simpa [setK, lookupK, hk, hj] using ih

@[simp]
theorem lookupK_eraseK_self {α : Type} (id : PeerId) (l : List (PeerId × α)) :
    lookupK id (eraseK id l) = none := by
  induction l with
  | nil => simp [eraseK, lookupK]
  | cons hd tl ih =>
    by_cases h : hd.1 = id
    · simpa [eraseK, h] using ih
    · simpa [eraseK, lookupK, h] using ih

theorem lookupK_eraseK_ne {α : Type} {id j : PeerId} (h : id ≠ j)
    (l : List (PeerId × α)) : lookupK j (eraseK id l) = lookupK j l := by
  induction l with
  | nil => simp [eraseK]
  | cons hd tl ih =>
    by_cases hk : hd.1 = id
    · simpa [eraseK, lookupK, hk, h] using ih
    · by_cases hj : hd.1 = j
      · simp [eraseK, lookupK, hk, hj, Ne.symm h]
      · simpa [eraseK, lookupK, hk, hj] using ih

theorem eraseK_of_lookupK_none {α : Type} {id : PeerId} {l : List (PeerId × α)}
    (h : lookupK id l = none) : eraseK id l = l := by
  induction l with
  | nil => simp [eraseK]
  | cons hd tl ih =>
    by_cases hk : hd.1 = id
    · simp [lookupK, hk] at h
    · simp [lookupK, hk] at h
      simp [eraseK, hk, ih h]

theorem eraseK_idem {α : Type} (id : PeerId) (l : List (PeerId × α)) :
    eraseK id (eraseK id l) = eraseK id l :=
  eraseK_of_lookupK_none (lookupK_eraseK_self id l)

theorem eraseK_setK_of_none {α : Type} {id : PeerId} {l : List (PeerId × α)}
    (v : α) (h : lookupK id l = none) : eraseK id (setK id v l) = l := by
  induction l with
  | nil => simp [setK, eraseK]
  | cons hd tl ih =>
    by_cases hk : hd.1 = id
    · simp [lookupK, hk] at h
    · simp [lookupK, hk] at h
      simp [setK, eraseK, hk, ih h]

theorem setK_setK {α : Type} (id : PeerId) (v w : α) (l : List (PeerId × α)) :
    setK id v (setK id w l) = setK id v l := by
  induction l with
  | nil => simp [setK]
  | cons hd tl ih =>
    by_cases hk : hd.1 = id
    · simp [setK, hk]
    · simp [setK, hk, ih]

theorem mem_setK {α : Type} {id : PeerId} {v : α} {l : List (PeerId × α)}
    {p : PeerId × α} (h : p ∈ setK id v l) : p = (id, v) ∨ p ∈ l := by
  induction l with
  | nil =>
    simp [setK] at h
    exact Or.inl h
  | cons hd tl ih =>
    by_cases hk : hd.1 = id
    · simp [setK, hk] at h
      rcases h with h | h
      · exact Or.inl h
      · exact Or.inr (List.mem_cons_of_mem _ h)
    · simp only [setK, if_neg hk, List.mem_cons] at h
      rcases h with h | h
      · exact Or.inr (by simp [h])
      · rcases ih h with h2 | h2
        · exact Or.inl h2
        · exact Or.inr (List.mem_cons_of_mem _ h2)

theorem mem_eraseK {α : Type} {id : PeerId} {l : List (PeerId × α)}
    {p : PeerId × α} (h : p ∈ eraseK id l) : p ∈ l := by
  induction l with
  | nil => simp [eraseK] at h
  | cons hd tl ih =>
    by_cases hk : hd.1 = id
    · simp only [eraseK, if_pos hk] at h
      exact List.mem_cons_of_mem _ (ih h)
    · simp only [eraseK, if_neg hk, List.mem_cons] at h
      rcases h with h | h
      · simp [h]
      · exact List.mem_cons_of_mem _ (ih h)

theorem lookupK_mem {α : Type} {id : PeerId} {v : α} {l : List (PeerId × α)}
    (h : lookupK id l = some v) : (id, v) ∈ l := by
  induction l with
  | nil => simp [lookupK] at h
  | cons hd tl ih =>
    obtain ⟨k, w⟩ := hd
    by_cases hk : k = id
    · simp [lookupK, hk] at h
      subst hk
      subst h
      exact List.mem_cons_self _ _
    · simp [lookupK, hk] at h
      exact List.mem_cons_of_mem _ (ih h)

/-! ## Counter and projection lemmas -/

@[simp]
theorem countP_nil (p : Out → Bool) : countP p [] = 0 := rfl

@[simp]
theorem countP_cons (p : Out → Bool) (o : Out) (l : List Out) :
    countP p (o :: l) = (if p o then 1 else 0) + countP p l := rfl

@[simp]
theorem countP_append (p : Out → Bool) (l m : List Out) :
    countP p (l ++ m) = countP p l + countP p m := by
  induction l with
  | nil => simp
  | cons hd tl ih =>
    simp [ih]
    omega

theorem countP_eq_zero_of_forall {p : Out → Bool} {l : List Out}
    (h : ∀ o ∈ l, p o = false) : countP p l = 0 := by
  induction l with
  | nil => rfl
  | cons hd tl ih =>
    have h1 := h hd (List.mem_cons_self hd tl)
    simp [h1, ih fun o ho => h o (List.mem_cons_of_mem _ ho)]

@[simp]
theorem applyCands_nil : applyCands [] = [] := rfl

theorem applyCands_append (l m : List Out) :
    applyCands (l ++ m) = applyCands l ++ applyCands m := by
  induction l with
  | nil => simp
  | cons hd tl ih => cases hd <;> simp [applyCands, ih]

theorem mem_drainOuts {eng : Engine} {tok : Nat} {id : PeerId} {q : List Cand}
    {o : Out} (h : o ∈ drainOuts eng tok id q) :
    (∃ c, o = Out.applyCand tok c) ∨ o = Out.evError id Err.engine := by
  induction q with
  | nil => simp [drainOuts] at h
  | cons c rest ih =>
    by_cases hc : eng.candOk c
    · simp [drainOuts, hc] at h
      rcases h with h | h
      · exact Or.inl ⟨c, h⟩
      · exact ih h
    · simp [drainOuts, hc] at h
      rcases h with h | h | h
      · exact Or.inl ⟨c, h⟩
      · exact Or.inr h
      · exact ih h

theorem applyCands_drainOuts (eng : Engine) (tok : Nat) (id : PeerId) (q : List Cand) :
    applyCands (drainOuts eng tok id q) = q.map (fun c => (tok, c)) := by
  induction q with
  | nil => simp [drainOuts]
  | cons c rest ih =>
    by_cases hc : eng.candOk c
    · simp [drainOuts, hc, applyCands, ih]
    · simp [drainOuts, hc, applyCands, ih]

/-! ## Outbound-queue lemmas (queue-carrying Sender variant) -/

theorem dropLast_append_dropLast (k : Nat) (a b : List Nat) :
    (a.drop (a.length - k) ++ b).drop ((a.drop (a.length - k) ++ b).length - k)
      = (a ++ b).drop ((a ++ b).length - k) := by
  by_cases hk : a.length ≤ k
  · simp [Nat.sub_eq_zero_of_le hk]
  · push_neg at hk
    have h1 : (a.drop (a.length - k)).length = k := by
      simp [List.length_drop]
      omega
    have h2 : a.length - k ≤ a.length := Nat.sub_le _ _
    rw [List.length_append, h1, List.length_append]
    have h3 : k + b.length - k = b.length := by omega
    have h4 : a.length + b.length - k = (a.length - k) + b.length := by omega
    rw [h3, h4, ← List.drop_drop, List.drop_append_of_le_length h2]

theorem qsend_closed (k : Nat) (conn : QConn) (d : Nat)
    (hcl : conn.channelOpen = false) (hlen : conn.queue.length ≤ k) :
    qsend k conn d =
      ({ conn with queue :=
          (conn.queue ++ [d]).drop ((conn.queue ++ [d]).length - k) }, []) := by
  have hq : (conn.queue ++ [d]).length = conn.queue.length + 1 := by simp
  by_cases hfull : conn.queue.length = k
  · have hcond : k < (conn.queue ++ [d]).length := by omega
    have h1 : (conn.queue ++ [d]).length - k = 1 := by omega
    rw [h1]
    simp [qsend, hcl, hcond, List.drop_one]
    intro hcontra
    exact absurd hcontra (by omega)
  · have hlt : conn.queue.length < k := by omega
    have hcond : ¬k < (conn.queue ++ [d]).length := by omega
    have h0 : (conn.queue ++ [d]).length - k = 0 := by omega
    rw [h0]
    simp [qsend, hcl, hcond]
    intro hcontra
    exact absurd hcontra (by omega)

theorem qsendAll_closed (k : Nat) : ∀ (ds : List Nat) (conn : QConn),
    conn.channelOpen = false → conn.queue.length ≤ k →
    qsendAll k conn ds =
      ({ conn with queue := (conn.queue ++ ds).drop ((conn.queue ++ ds).length - k) }, []) := by
  intro ds
  induction ds with
  | nil =>
    intro conn hcl hlen
    have h0 : conn.queue.length - k = 0 := by omega
    simp [qsendAll, h0]
  | cons d rest ih =>
    intro conn hcl hlen
    have hstep := qsend_closed k conn d hcl hlen
    have hlen1 : ((conn.queue ++ [d]).drop ((conn.queue ++ [d]).length - k)).length ≤ k := by
      simp [List.length_drop]
      omega
    have hrec := ih ((qsend k conn d).1) (by rw [hstep]; exact hcl) (by rw [hstep]; exact hlen1)
    rw [hstep] at hrec
    simp only [qsendAll, hstep, hrec]
    rw [dropLast_append_dropLast k (conn.queue ++ [d]) rest]
    simp

/-- C5: for a Sender connection whose data channel has been requested but is
not yet open, the outbound queue never exceeds `queueSize`; an enqueue that
would exceed capacity shifts off the front (oldest) retained entry; a run of
sends retains exactly the most recent `queueSize` payloads in enqueue order
and transmits nothing; the channel-open flush delivers exactly those
retained payloads, in order, leaving the queue empty; and once the channel
is open every send goes directly to the wire. -/
theorem claim_C5 (k : Nat) (conn : QConn) (d : Nat) (ds : List Nat)
    (hcl : conn.channelOpen = false) (hlen : conn.queue.length ≤ k) :
    (qsend k conn d).1.queue.length ≤ k
    ∧ (k < (conn.queue ++ [d]).length →
        (qsend k conn d).1.queue = (conn.queue ++ [d]).drop 1)
    ∧ (qsendAll k conn ds).1.queue =
        (conn.queue ++ ds).drop ((conn.queue ++ ds).length - k)
    ∧ (qsendAll k conn ds).2 = []
    ∧ qflushOpen (qsendAll k conn ds).1 =
        ({ channelOpen := true, queue := [] },
          (conn.queue ++ ds).drop ((conn.queue ++ ds).length - k))
    ∧ (∀ c2 : QConn, c2.channelOpen = true → ∀ d2, qsend k c2 d2 = (c2, [d2])) := by
  have hstep := qsend_closed k conn d hcl hlen
  have hall := qsendAll_closed k ds conn hcl hlen
  refine ⟨?_, ?_, ?_, ?_, ?_, ?_⟩
  · rw [hstep]
    simp [List.length_drop]
    omega
  · intro hover
    have hlen2 : conn.queue.length = k := by
      simp [List.length_append] at hover
      omega
    simp [qsend, hcl, hover, List.drop_one]
    intro hcontra
    exact absurd hcontra (by omega)
  · rw [hall]
  · rw [hall]
  · rw [hall]
    simp [qflushOpen]
  · intro c2 h2 d2
    simp [qsend, h2]

/-- C5 witness: concrete three-payload run over a capacity-two queue. -/
theorem claim_C5_witness :
    (qsendAll 2 ⟨false, []⟩ [5, 6, 7]).1.queue = [6, 7]
    ∧ (qflushOpen (qsendAll 2 ⟨false, []⟩ [5, 6, 7]).1).2 = [6, 7] := by
  have h := claim_C5 2 ⟨false, []⟩ 9 [5, 6, 7] rfl (by decide)
  constructor
  · rw [h.2.2.1]
    decide
  · rw [h.2.2.2.2.1]
    decide


/-! ## Dispose idempotence (C4), remote dispose handling (C6), invoke handling (C9) -/

/-- C4 counterexample: invoking the Sender dispose closure a second time for
the same connection dispatches a second `dispose` event and emits a second
`dispose` message to the remote, so two invocations are observably
different from one (two notifications and two messages instead of one). -/
theorem claim_C4_cex :
    countP (isEvDispose 1)
      ((senderDispose sStateEx 1 sconnEx none).2
        ++ (senderDispose (senderDispose sStateEx 1 sconnEx none).1 1 sconnEx none).2) = 2
    ∧ countP (isMsgDispose 1)
      ((senderDispose sStateEx 1 sconnEx none).2
        ++ (senderDispose (senderDispose sStateEx 1 sconnEx none).1 1 sconnEx none).2) = 2 := by
  constructor <;> decide

/-- C4 amended: the registry effect of disposal is idempotent — a second
invocation of the dispose closure leaves the registry unchanged and only
re-targets already-closed resources — but disposal is not observationally
idempotent: every invocation re-runs the full effect list, so a second
invocation dispatches a second `dispose` event and (Sender side) emits a
second `dispose` message to the remote. -/
theorem claim_C4_amended (s : SState) (r : RState) (id : PeerId)
    (sc : SConn) (rc : RConn) (e1 e2 : Option Err) :
    (senderDispose (senderDispose s id sc e1).1 id sc e2).1.connections
        = (senderDispose s id sc e1).1.connections
    ∧ (receiverDispose (receiverDispose r id rc e1).1 id rc e2).1.connections
        = (receiverDispose r id rc e1).1.connections
    ∧ (senderDispose (senderDispose s id sc e1).1 id sc e2).2 = senderDisposeOuts id sc e2
    ∧ (receiverDispose (receiverDispose r id rc e1).1 id rc e2).2 = receiverDisposeOuts id rc e2
    ∧ countP (isEvDispose id) (senderDisposeOuts id sc e2) = 1
    ∧ countP (isMsgDispose id) (senderDisposeOuts id sc e2) = 1
    ∧ countP (isEvDispose id) (receiverDisposeOuts id rc e2) = 1 := by
  refine ⟨?_, ?_, rfl, rfl, ?_, ?_, ?_⟩
  · simp [senderDispose, eraseK_idem]
  · simp [receiverDispose, eraseK_idem]
  · simp [senderDisposeOuts, countP, isEvDispose, isMsgDispose]
  · simp [senderDisposeOuts, countP, isEvDispose, isMsgDispose]
  · simp [receiverDisposeOuts, countP, isEvDispose, isMsgDispose]

/-- C6 counterexample: a started Sender that receives a remote `dispose`
message for a registered peer id keeps the connection — the registry is
unchanged and nothing happens — contradicting the claim that every started
Sender or Receiver disposes the Connection on a remote `dispose`. -/
theorem claim_C6_cex :
    senderStep cfgEx engEx sStateEx (SIn.msg (Msg.dispose 1)) = (sStateEx, [])
    ∧ lookupK 1 sStateEx.connections = some sconnEx := by
  constructor <;> decide

/-- C6 amended: a started Receiver that receives a remote `dispose` message
for a registered peer id disposes that Connection — closing its channels,
then its engine handle, removing the peer id from the registry — and sends
nothing back on the driver; a started Sender, by contrast, has no handler
branch for `dispose` messages and ignores them entirely. -/
theorem claim_C6_amended (cfg : SCfg) (rcfg : RCfg) (eng : Engine)
    (s : SState) (r : RState) (id : PeerId) (rc : RConn)
    (hr : lookupK id r.connections = some rc) (hself : id ≠ rcfg.selfId) :
    receiverStep rcfg eng r (RIn.msg (Msg.dispose id)) = receiverDispose r id rc none
    ∧ lookupK id (receiverStep rcfg eng r (RIn.msg (Msg.dispose id))).1.connections = none
    ∧ countP isDriverMsg (receiverDisposeOuts id rc none) = 0
    ∧ receiverDisposeOuts id rc none =
        [Out.clearTimer rc.token, Out.closeChannels rc.token, Out.closePeer rc.token,
         Out.evDispose id rc.token none]
    ∧ senderStep cfg eng s (SIn.msg (Msg.dispose id)) = (s, []) := by
  refine ⟨?_, ?_, ?_, rfl, ?_⟩
  · simp [receiverStep, receiverHandleMsg, hself, hr]
  · simp [receiverStep, receiverHandleMsg, hself, hr, receiverDispose]
  · simp [receiverDisposeOuts, countP, isDriverMsg]
  · simp [senderStep, senderHandleMsg]

/-- C6 witness: concrete remote-dispose delivery at a Receiver holding one
connection, and at a Sender holding one connection. -/
theorem claim_C6_witness :
    lookupK 1 (receiverStep rcfgEx engEx rStateEx (RIn.msg (Msg.dispose 1))).1.connections = none
    ∧ senderStep cfgEx engEx sStateEx (SIn.msg (Msg.dispose 1)) = (sStateEx, []) := by
  have h := claim_C6_amended cfgEx rcfgEx engEx sStateEx rStateEx 1 rconnEx (by decide) (by decide)
  exact ⟨h.2.1, h.2.2.2.2⟩

/-- C9 counterexample: a started Receiver with an empty registry answers an
`invoke` message by emitting a targeted `invoke` of its own, contradicting
the claim that handling an `invoke` emits no message in response. -/
theorem claim_C9_cex :
    (receiverStep rcfgEx engEx RState.init (RIn.msg (Msg.invoke 1 5))).2
      = [Out.msgInvoke (some 1)] := by
  decide

/-- C9 amended: handling an `invoke` at a started Receiver never creates a
Connection and never mutates the registry, buffers or counters; when no
Connection exists for the peer id it responds with exactly one targeted
`invoke` (carrying the credentials), and when one exists it is a complete
no-op. -/
theorem claim_C9_amended (rcfg : RCfg) (eng : Engine) (r : RState) (id : PeerId)
    (cred : Cred) (hself : id ≠ rcfg.selfId) :
    receiverStep rcfg eng r (RIn.msg (Msg.invoke id cred))
      = (r, if (lookupK id r.connections).isSome then [] else [Out.msgInvoke (some id)]) := by
  by_cases hc : (lookupK id r.connections).isSome
  · simp [receiverStep, receiverHandleMsg, hself, hc]
  · simp [receiverStep, receiverHandleMsg, hself, hc]

/-- C9 witness: with a connection already registered for peer 1, the invoke
is a complete no-op. -/
theorem claim_C9_witness :
    receiverStep rcfgEx engEx rStateEx (RIn.msg (Msg.invoke 1 5)) = (rStateEx, []) := by
  have h := claim_C9_amended rcfgEx engEx rStateEx 1 5 (by decide)
  rw [h]
  decide


/-! ## Admission idempotence (C1) -/

theorem countP_drainOuts_eq_zero (eng : Engine) (tok : Nat) (id : PeerId) (q : List Cand)
    (p : Out → Bool) (h1 : ∀ c, p (Out.applyCand tok c) = false)
    (h2 : p (Out.evError id Err.engine) = false) :
    countP p (drainOuts eng tok id q) = 0 := by
  apply countP_eq_zero_of_forall
  intro o ho
  rcases mem_drainOuts ho with ⟨c, rfl⟩ | rfl
  · exact h1 c
  · exact h2

theorem senderRun_invoke_noop (cfg : SCfg) (eng : Engine) (id : PeerId) :
    ∀ (creds : List Cred) (s : SState) (c : SConn), lookupK id s.connections = some c →
    senderRun cfg eng s (creds.map fun cr => SIn.msg (Msg.invoke id cr)) = (s, []) := by
  intro creds
  induction creds with
  | nil =>
    intro s c h
    rfl
  | cons cr rest ih =>
    intro s c h
    have hstep : senderStep cfg eng s (SIn.msg (Msg.invoke id cr)) = (s, []) := by
      by_cases hself : id = cfg.selfId <;> simp [senderStep, senderHandleMsg, h, hself]
    simp only [List.map_cons, senderRun, hstep]
    simp [ih s c h]

theorem senderAdmit_lookup (cfg : SCfg) (s : SState) (id : PeerId) :
    lookupK id (senderAdmit cfg s id).1.connections
      = some { token := s.nextToken, timerArmed := decide (0 < cfg.connectionTimeout),
               connected := false, remoteSet := false } := by
  simp [senderAdmit]

theorem senderAdmit_offer_count (cfg : SCfg) (s : SState) (id : PeerId) :
    countP (isMsgOffer id) (senderAdmit cfg s id).2 = 1 := by
  by_cases harm : (0 : Int) < cfg.connectionTimeout <;>
    simp [senderAdmit, harm, countP, isMsgOffer, isArmTimer]

theorem senderRun_invoke_count (cfg : SCfg) (eng : Engine) (id : PeerId) :
    ∀ (creds : List Cred) (s : SState),
    countP (isMsgOffer id)
      (senderRun cfg eng s (creds.map fun cr => SIn.msg (Msg.invoke id cr))).2 ≤ 1 := by
  intro creds
  induction creds with
  | nil =>
    intro s
    simp [senderRun]
  | cons cr rest ih =>
    intro s
    by_cases hself : id = cfg.selfId
    · have hstep : senderStep cfg eng s (SIn.msg (Msg.invoke id cr)) = (s, []) := by
        simp [senderStep, senderHandleMsg, hself]
      simp only [List.map_cons, senderRun, hstep]
      simpa using ih s
    · cases hc : lookupK id s.connections with
      | some c =>
        have hstep : senderStep cfg eng s (SIn.msg (Msg.invoke id cr)) = (s, []) := by
          simp [senderStep, senderHandleMsg, hself, hc]
        simp only [List.map_cons, senderRun, hstep]
        simpa using ih s
      | none =>
        by_cases hv : senderVerifyOk cfg id cr
        · have hstep : senderStep cfg eng s (SIn.msg (Msg.invoke id cr))
              = senderAdmit cfg s id := by
            simp [senderStep, senderHandleMsg, hself, hc, hv]
          have hrest := senderRun_invoke_noop cfg eng id rest (senderAdmit cfg s id).1 _
            (senderAdmit_lookup cfg s id)
          simp only [List.map_cons, senderRun, hstep, hrest]
          simp [senderAdmit_offer_count cfg s id]
        · have hstep : senderStep cfg eng s (SIn.msg (Msg.invoke id cr)) = (s, []) := by
            simp [senderStep, senderHandleMsg, hself, hc, hv]
          simp only [List.map_cons, senderRun, hstep]
          simpa using ih s

theorem receiverRun_offer_noop (rcfg : RCfg) (eng : Engine) (id : PeerId) :
    ∀ (ds : List Desc) (r : RState) (c : RConn), lookupK id r.connections = some c →
    receiverRun rcfg eng r (ds.map fun d2 => RIn.msg (Msg.offer id d2)) = (r, []) := by
  intro ds
  induction ds with
  | nil =>
    intro r c h
    rfl
  | cons d rest ih =>
    intro r c h
    have hstep : receiverStep rcfg eng r (RIn.msg (Msg.offer id d)) = (r, []) := by
      by_cases hself : id = rcfg.selfId <;> simp [receiverStep, receiverHandleMsg, h, hself]
    simp only [List.map_cons, receiverRun, hstep]
    simp [ih r c h]

theorem receiverAdmit_lookup (rcfg : RCfg) (eng : Engine) (r : RState) (id : PeerId)
    (d : Desc) (hsrd : eng.srdOk d = true) :
    lookupK id (receiverAdmit rcfg eng r id d).1.connections
      = some { token := r.nextToken, timerArmed := decide (0 < rcfg.connectionTimeout),
               connected := false } := by
  cases hq : lookupK id r.candidateQueues with
  | none => simp [receiverAdmit, hsrd, hq]
  | some q => simp [receiverAdmit, hsrd, hq]

theorem receiverAdmit_answer_count (rcfg : RCfg) (eng : Engine) (r : RState) (id : PeerId)
    (d : Desc) (hsrd : eng.srdOk d = true) :
    countP (isMsgAnswer id) (receiverAdmit rcfg eng r id d).2 = 1 := by
  cases hq : lookupK id r.candidateQueues with
  | none =>
    by_cases harm : (0 : Int) < rcfg.connectionTimeout <;>
      simp [receiverAdmit, hsrd, hq, harm, countP, isMsgAnswer, isArmTimer]
  | some q =>
    have hz := countP_drainOuts_eq_zero eng r.nextToken id q (isMsgAnswer id)
      (fun c => rfl) rfl
    by_cases harm : (0 : Int) < rcfg.connectionTimeout <;>
      simp [receiverAdmit, hsrd, hq, harm, countP, isMsgAnswer, isArmTimer, hz]

theorem receiverRun_offer_count (rcfg : RCfg) (eng : Engine) (id : PeerId) :
    ∀ (ds : List Desc) (r : RState), (∀ d2 ∈ ds, eng.srdOk d2 = true) →
    countP (isMsgAnswer id)
      (receiverRun rcfg eng r (ds.map fun d2 => RIn.msg (Msg.offer id d2))).2 ≤ 1 := by
  intro ds
  induction ds with
  | nil =>
    intro r hok
    simp [receiverRun]
  | cons d rest ih =>
    intro r hok
    have hd : eng.srdOk d = true := hok d (List.mem_cons_self d rest)
    have hrestok : ∀ d2 ∈ rest, eng.srdOk d2 = true :=
      fun d2 h2 => hok d2 (List.mem_cons_of_mem _ h2)
    by_cases hself : id = rcfg.selfId
    · have hstep : receiverStep rcfg eng r (RIn.msg (Msg.offer id d)) = (r, []) := by
        simp [receiverStep, receiverHandleMsg, hself]
      simp only [List.map_cons, receiverRun, hstep]
      simpa using ih r hrestok
    · cases hc : lookupK id r.connections with
      | some c =>
        have hstep : receiverStep rcfg eng r (RIn.msg (Msg.offer id d)) = (r, []) := by
          simp [receiverStep, receiverHandleMsg, hself, hc]
        simp only [List.map_cons, receiverRun, hstep]
        simpa using ih r hrestok
      | none =>
        have hstep : receiverStep rcfg eng r (RIn.msg (Msg.offer id d))
            = receiverAdmit rcfg eng r id d := by
          simp [receiverStep, receiverHandleMsg, hself, hc]
        have hrest := receiverRun_offer_noop rcfg eng id rest (receiverAdmit rcfg eng r id d).1 _
          (receiverAdmit_lookup rcfg eng r id d hd)
        simp only [List.map_cons, receiverRun, hstep, hrest]
        simp [receiverAdmit_answer_count rcfg eng r id d hd]

/-- C1: handling an `invoke` at a started Sender, or an `offer` at a started
Receiver, while a Connection for that peer id is already registered changes
nothing — the state is untouched and no effect (no new Connection, no
timer, no emission, no event) is produced; consequently, over any sequence
of `invoke` messages (Sender) or successfully negotiated `offer` messages
(Receiver) for one peer id, at most one Connection is ever admitted, as
counted by the admission emissions (the offer, respectively the answer). -/
theorem claim_C1 (cfg : SCfg) (rcfg : RCfg) (eng : Engine) (s : SState) (r : RState)
    (id : PeerId) (cred : Cred) (d : Desc) (sc : SConn) (rc : RConn)
    (hs : lookupK id s.connections = some sc)
    (hr : lookupK id r.connections = some rc) :
    senderStep cfg eng s (SIn.msg (Msg.invoke id cred)) = (s, [])
    ∧ receiverStep rcfg eng r (RIn.msg (Msg.offer id d)) = (r, [])
    ∧ (∀ (s0 : SState) (creds : List Cred),
        countP (isMsgOffer id)
          (senderRun cfg eng s0 (creds.map fun cr => SIn.msg (Msg.invoke id cr))).2 ≤ 1)
    ∧ (∀ (r0 : RState) (ds : List Desc), (∀ d2 ∈ ds, eng.srdOk d2 = true) →
        countP (isMsgAnswer id)
          (receiverRun rcfg eng r0 (ds.map fun d2 => RIn.msg (Msg.offer id d2))).2 ≤ 1) := by
  refine ⟨?_, ?_, ?_, ?_⟩
  · by_cases hself : id = cfg.selfId <;> simp [senderStep, senderHandleMsg, hs, hself]
  · by_cases hself : id = rcfg.selfId <;> simp [receiverStep, receiverHandleMsg, hr, hself]
  · intro s0 creds
    exact senderRun_invoke_count cfg eng id creds s0
  · intro r0 ds hok
    exact receiverRun_offer_count rcfg eng id ds r0 hok

/-- C1 witness: duplicate invoke at a Sender holding a connection for peer 1
is a strict no-op, and a two-invoke sequence admits at most one connection. -/
theorem claim_C1_witness :
    senderStep cfgEx engEx sStateEx (SIn.msg (Msg.invoke 1 7)) = (sStateEx, [])
    ∧ receiverStep rcfgEx engEx rStateEx (RIn.msg (Msg.offer 1 3)) = (rStateEx, [])
    ∧ countP (isMsgOffer 1)
        (senderRun cfgEx engEx SState.init
          [SIn.msg (Msg.invoke 1 7), SIn.msg (Msg.invoke 1 8)]).2 ≤ 1 := by
  have h := claim_C1 cfgEx rcfgEx engEx sStateEx rStateEx 1 7 3 sconnEx rconnEx
    (by decide) (by decide)
  refine ⟨h.1, h.2.1, ?_⟩
  have h2 := h.2.2.1 SState.init [7, 8]
  simpa using h2


/-! ## Candidate buffering and drain (C2) -/

theorem setK_of_lookupK {α : Type} {id : PeerId} {v : α} {l : List (PeerId × α)}
    (h : lookupK id l = some v) : setK id v l = l := by
  induction l with
  | nil => simp [lookupK] at h
  | cons hd tl ih =>
    obtain ⟨k, w⟩ := hd
    by_cases hk : k = id
    · simp [lookupK, hk] at h
      subst hk
      subst h
      simp [setK]
    · simp [lookupK, hk] at h
      simp [setK, hk, ih h]

theorem senderRun_append (cfg : SCfg) (eng : Engine) :
    ∀ (l1 l2 : List SIn) (s : SState),
    senderRun cfg eng s (l1 ++ l2)
      = ((senderRun cfg eng (senderRun cfg eng s l1).1 l2).1,
         (senderRun cfg eng s l1).2 ++ (senderRun cfg eng (senderRun cfg eng s l1).1 l2).2) := by
  intro l1
  induction l1 with
  | nil =>
    intro l2 s
    simp [senderRun]
  | cons i rest ih =>
    intro l2 s
    simp only [List.cons_append, senderRun]
    rw [show rest.append l2 = rest ++ l2 from rfl, ih l2 (senderStep cfg eng s i).1]
    simp

theorem receiverRun_append (rcfg : RCfg) (eng : Engine) :
    ∀ (l1 l2 : List RIn) (r : RState),
    receiverRun rcfg eng r (l1 ++ l2)
      = ((receiverRun rcfg eng (receiverRun rcfg eng r l1).1 l2).1,
         (receiverRun rcfg eng r l1).2 ++ (receiverRun rcfg eng (receiverRun rcfg eng r l1).1 l2).2) := by
  intro l1
  induction l1 with
  | nil =>
    intro l2 r
    simp [receiverRun]
  | cons i rest ih =>
    intro l2 r
    simp only [List.cons_append, receiverRun]
    rw [show rest.append l2 = rest ++ l2 from rfl, ih l2 (receiverStep rcfg eng r i).1]
    simp

theorem senderRun_cand_buffer (cfg : SCfg) (eng : Engine) (id : PeerId) :
    ∀ (cs : List Cand) (s : SState) (q0 : List Cand),
    id ≠ cfg.selfId → lookupK id s.connections = none →
    lookupK id s.candidateQueues = some q0 →
    senderRun cfg eng s (cs.map fun c => SIn.msg (Msg.candidate id c))
      = ({ s with candidateQueues := setK id (q0 ++ cs) s.candidateQueues }, []) := by
  intro cs
  induction cs with
  | nil =>
    intro s q0 hself hc hq
    simp [senderRun, setK_of_lookupK hq]
  | cons c rest ih =>
    intro s q0 hself hc hq
    have hstep : senderStep cfg eng s (SIn.msg (Msg.candidate id c))
        = ({ s with candidateQueues := setK id (q0 ++ [c]) s.candidateQueues }, []) := by
      simp [senderStep, senderHandleMsg, hself, hc, hq]
    have hq1 : lookupK id (setK id (q0 ++ [c]) s.candidateQueues) = some (q0 ++ [c]) :=
      lookupK_setK_self id (q0 ++ [c]) s.candidateQueues
    have hrest := ih { s with candidateQueues := setK id (q0 ++ [c]) s.candidateQueues }
      (q0 ++ [c]) hself hc hq1
    simp only [List.map_cons, senderRun, hstep]
    rw [hrest]
    simp [setK_setK]

theorem senderRun_cand_bufferStart (cfg : SCfg) (eng : Engine) (id : PeerId) (c : Cand)
    (cs : List Cand) (s : SState) (hself : id ≠ cfg.selfId)
    (hc : lookupK id s.connections = none) (hq : lookupK id s.candidateQueues = none) :
    senderRun cfg eng s ((c :: cs).map fun c2 => SIn.msg (Msg.candidate id c2))
      = ({ s with candidateQueues := setK id (c :: cs) s.candidateQueues }, []) := by
  have hstep : senderStep cfg eng s (SIn.msg (Msg.candidate id c))
      = ({ s with candidateQueues := setK id [c] s.candidateQueues }, []) := by
    simp [senderStep, senderHandleMsg, hself, hc, hq]
  have hq1 : lookupK id (setK id [c] s.candidateQueues) = some [c] :=
    lookupK_setK_self id [c] s.candidateQueues
  have hrest := senderRun_cand_buffer cfg eng id cs
    { s with candidateQueues := setK id [c] s.candidateQueues } [c] hself hc hq1
  simp only [List.map_cons, senderRun, hstep]
  rw [hrest]
  simp [setK_setK]

theorem senderRun_cand_direct (cfg : SCfg) (eng : Engine) (id : PeerId) :
    ∀ (cs : List Cand) (s : SState) (c : SConn),
    id ≠ cfg.selfId → lookupK id s.connections = some c →
    senderRun cfg eng s (cs.map fun c2 => SIn.msg (Msg.candidate id c2))
      = (s, drainOuts eng c.token id cs) := by
  intro cs
  induction cs with
  | nil =>
    intro s c hself hc
    simp [senderRun, drainOuts]
  | cons c2 rest ih =>
    intro s c hself hc
    have hstep : senderStep cfg eng s (SIn.msg (Msg.candidate id c2))
        = (s, Out.applyCand c.token c2 ::
            (if eng.candOk c2 then [] else [Out.evError id Err.engine])) := by
      simp [senderStep, senderHandleMsg, hself, hc]
    simp only [List.map_cons, senderRun, hstep]
    rw [ih s c hself hc]
    by_cases hok : eng.candOk c2 <;> simp [drainOuts, hok]

theorem senderStep_answer_drain (cfg : SCfg) (eng : Engine) (id : PeerId) (s : SState)
    (c : SConn) (d : Desc) (q : List Cand) (hself : id ≠ cfg.selfId)
    (hc : lookupK id s.connections = some c) (hsrd : eng.srdOk d = true)
    (hq : lookupK id s.candidateQueues = some q) :
    senderStep cfg eng s (SIn.msg (Msg.answer id d))
      = ({ s with connections := setK id { c with remoteSet := true } s.connections, candidateQueues := eraseK id s.candidateQueues },
         drainOuts eng c.token id q) := by
  simp [senderStep, senderHandleMsg, hself, hc, hsrd, hq]

theorem senderStep_answer_nodrain (cfg : SCfg) (eng : Engine) (id : PeerId) (s : SState)
    (c : SConn) (d : Desc) (hself : id ≠ cfg.selfId)
    (hc : lookupK id s.connections = some c) (hsrd : eng.srdOk d = true)
    (hq : lookupK id s.candidateQueues = none) :
    senderStep cfg eng s (SIn.msg (Msg.answer id d))
      = ({ s with connections := setK id { c with remoteSet := true } s.connections }, []) := by
  simp [senderStep, senderHandleMsg, hself, hc, hsrd, hq]

theorem receiverRun_cand_buffer (rcfg : RCfg) (eng : Engine) (id : PeerId) :
    ∀ (cs : List Cand) (r : RState) (q0 : List Cand),
    id ≠ rcfg.selfId → lookupK id r.connections = none →
    lookupK id r.candidateQueues = some q0 →
    receiverRun rcfg eng r (cs.map fun c => RIn.msg (Msg.candidate id c))
      = ({ r with candidateQueues := setK id (q0 ++ cs) r.candidateQueues }, []) := by
  intro cs
  induction cs with
  | nil =>
    intro r q0 hself hc hq
    simp [receiverRun, setK_of_lookupK hq]
  | cons c rest ih =>
    intro r q0 hself hc hq
    have hstep : receiverStep rcfg eng r (RIn.msg (Msg.candidate id c))
        = ({ r with candidateQueues := setK id (q0 ++ [c]) r.candidateQueues }, []) := by
      simp [receiverStep, receiverHandleMsg, hself, hc, hq]
    have hq1 : lookupK id (setK id (q0 ++ [c]) r.candidateQueues) = some (q0 ++ [c]) :=
      lookupK_setK_self id (q0 ++ [c]) r.candidateQueues
    have hrest := ih { r with candidateQueues := setK id (q0 ++ [c]) r.candidateQueues }
      (q0 ++ [c]) hself hc hq1
    simp only [List.map_cons, receiverRun, hstep]
    rw [hrest]
    simp [setK_setK]

theorem receiverRun_cand_bufferStart (rcfg : RCfg) (eng : Engine) (id : PeerId) (c : Cand)
    (cs : List Cand) (r : RState) (hself : id ≠ rcfg.selfId)
    (hc : lookupK id r.connections = none) (hq : lookupK id r.candidateQueues = none) :
    receiverRun rcfg eng r ((c :: cs).map fun c2 => RIn.msg (Msg.candidate id c2))
      = ({ r with candidateQueues := setK id (c :: cs) r.candidateQueues }, []) := by
  have hstep : receiverStep rcfg eng r (RIn.msg (Msg.candidate id c))
      = ({ r with candidateQueues := setK id [c] r.candidateQueues }, []) := by
    simp [receiverStep, receiverHandleMsg, hself, hc, hq]
  have hq1 : lookupK id (setK id [c] r.candidateQueues) = some [c] :=
    lookupK_setK_self id [c] r.candidateQueues
  have hrest := receiverRun_cand_buffer rcfg eng id cs
    { r with candidateQueues := setK id [c] r.candidateQueues } [c] hself hc hq1
  simp only [List.map_cons, receiverRun, hstep]
  rw [hrest]
  simp [setK_setK]

theorem receiverRun_cand_direct (rcfg : RCfg) (eng : Engine) (id : PeerId) :
    ∀ (cs : List Cand) (r : RState) (c : RConn),
    id ≠ rcfg.selfId → lookupK id r.connections = some c →
    receiverRun rcfg eng r (cs.map fun c2 => RIn.msg (Msg.candidate id c2))
      = (r, drainOuts eng c.token id cs) := by
  intro cs
  induction cs with
  | nil =>
    intro r c hself hc
    simp [receiverRun, drainOuts]
  | cons c2 rest ih =>
    intro r c hself hc
    have hstep : receiverStep rcfg eng r (RIn.msg (Msg.candidate id c2))
        = (r, Out.applyCand c.token c2 ::
            (if eng.candOk c2 then [] else [Out.evError id Err.engine])) := by
      simp [receiverStep, receiverHandleMsg, hself, hc]
    simp only [List.map_cons, receiverRun, hstep]
    rw [ih r c hself hc]
    by_cases hok : eng.candOk c2 <;> simp [drainOuts, hok]

theorem receiverStep_offerAdmit (rcfg : RCfg) (eng : Engine) (r : RState) (id : PeerId)
    (d : Desc) (hself : id ≠ rcfg.selfId) (hc : lookupK id r.connections = none) :
    receiverStep rcfg eng r (RIn.msg (Msg.offer id d)) = receiverAdmit rcfg eng r id d := by
  simp [receiverStep, receiverHandleMsg, hself, hc]

theorem receiverAdmit_drain (rcfg : RCfg) (eng : Engine) (r : RState) (id : PeerId)
    (d : Desc) (q : List Cand) (hsrd : eng.srdOk d = true)
    (hq : lookupK id r.candidateQueues = some q) :
    receiverAdmit rcfg eng r id d
      = ({ r with
            connections := setK id { token := r.nextToken, timerArmed := decide (0 < rcfg.connectionTimeout), connected := false } r.connections,
            candidateQueues := eraseK id r.candidateQueues,
            nextToken := r.nextToken + 1 },
         (if decide (0 < rcfg.connectionTimeout) then [Out.armTimer id r.nextToken] else [])
           ++ drainOuts eng r.nextToken id q ++ [Out.msgAnswer id]) := by
  simp [receiverAdmit, hsrd, hq]

theorem receiverAdmit_nodrain (rcfg : RCfg) (eng : Engine) (r : RState) (id : PeerId)
    (d : Desc) (hsrd : eng.srdOk d = true)
    (hq : lookupK id r.candidateQueues = none) :
    receiverAdmit rcfg eng r id d
      = ({ r with
            connections := setK id { token := r.nextToken, timerArmed := decide (0 < rcfg.connectionTimeout), connected := false } r.connections,
            nextToken := r.nextToken + 1 },
         (if decide (0 < rcfg.connectionTimeout) then [Out.armTimer id r.nextToken] else [])
           ++ [Out.msgAnswer id]) := by
  simp [receiverAdmit, hsrd, hq]


theorem senderRun_single (cfg : SCfg) (eng : Engine) (s : SState) (i : SIn) :
    senderRun cfg eng s [i] = ((senderStep cfg eng s i).1, (senderStep cfg eng s i).2) := by
  simp [senderRun]

theorem receiverRun_single (rcfg : RCfg) (eng : Engine) (r : RState) (i : RIn) :
    receiverRun rcfg eng r [i] = ((receiverStep rcfg eng r i).1, (receiverStep rcfg eng r i).2) := by
  simp [receiverRun]

theorem senderRun_inv_ans (cfg : SCfg) (eng : Engine) (id : PeerId) (cred : Cred) (d : Desc)
    (s2 : SState) (hself : id ≠ cfg.selfId) (hv : senderVerifyOk cfg id cred = true)
    (hsrd : eng.srdOk d = true) (hc2 : lookupK id s2.connections = none) :
    senderRun cfg eng s2 [SIn.msg (Msg.invoke id cred), SIn.msg (Msg.answer id d)]
      = ({ s2 with connections := setK id { token := s2.nextToken, timerArmed := decide (0 < cfg.connectionTimeout), connected := false, remoteSet := true } s2.connections, candidateQueues := eraseK id s2.candidateQueues, nextToken := s2.nextToken + 1 },
         ((if decide (0 < cfg.connectionTimeout) then [Out.armTimer id s2.nextToken] else [])
           ++ [Out.msgOffer id])
           ++ drainOuts eng s2.nextToken id ((lookupK id s2.candidateQueues).getD [])) := by
  have h1 : senderStep cfg eng s2 (SIn.msg (Msg.invoke id cred)) = senderAdmit cfg s2 id := by
    simp [senderStep, senderHandleMsg, hself, hc2, hv]
  have hadm : senderAdmit cfg s2 id
      = ({ s2 with connections := setK id { token := s2.nextToken, timerArmed := decide (0 < cfg.connectionTimeout), connected := false, remoteSet := false } s2.connections, nextToken := s2.nextToken + 1 },
         (if decide (0 < cfg.connectionTimeout) then [Out.armTimer id s2.nextToken] else [])
           ++ [Out.msgOffer id]) := by
    simp [senderAdmit]
  have hlook : lookupK id ({ s2 with connections := setK id { token := s2.nextToken, timerArmed := decide (0 < cfg.connectionTimeout), connected := false, remoteSet := false } s2.connections, nextToken := s2.nextToken + 1 } : SState).connections
      = some { token := s2.nextToken, timerArmed := decide (0 < cfg.connectionTimeout), connected := false, remoteSet := false } := by
    simp
  cases hqq : lookupK id s2.candidateQueues with
  | none =>
    have h2 := senderStep_answer_nodrain cfg eng id
      { s2 with connections := setK id { token := s2.nextToken, timerArmed := decide (0 < cfg.connectionTimeout), connected := false, remoteSet := false } s2.connections, nextToken := s2.nextToken + 1 }
      { token := s2.nextToken, timerArmed := decide (0 < cfg.connectionTimeout), connected := false, remoteSet := false }
      d hself hlook hsrd (by simpa using hqq)
    rw [show [SIn.msg (Msg.invoke id cred), SIn.msg (Msg.answer id d)]
        = [SIn.msg (Msg.invoke id cred)] ++ [SIn.msg (Msg.answer id d)] from rfl]
    rw [senderRun_append, senderRun_single, senderRun_single, h1, hadm]
    simp only [h2]
    simp [setK_setK, eraseK_of_lookupK_none hqq, drainOuts]
  | some q =>
    have h2 := senderStep_answer_drain cfg eng id
      { s2 with connections := setK id { token := s2.nextToken, timerArmed := decide (0 < cfg.connectionTimeout), connected := false, remoteSet := false } s2.connections, nextToken := s2.nextToken + 1 }
      { token := s2.nextToken, timerArmed := decide (0 < cfg.connectionTimeout), connected := false, remoteSet := false }
      d q hself hlook hsrd (by simpa using hqq)
    rw [show [SIn.msg (Msg.invoke id cred), SIn.msg (Msg.answer id d)]
        = [SIn.msg (Msg.invoke id cred)] ++ [SIn.msg (Msg.answer id d)] from rfl]
    rw [senderRun_append, senderRun_single, senderRun_single, h1, hadm]
    simp only [h2]
    simp [setK_setK]


theorem senderRun_buffered (cfg : SCfg) (eng : Engine) (id : PeerId) (cred : Cred) (d : Desc)
    (cs : List Cand) (s : SState) (hself : id ≠ cfg.selfId)
    (hv : senderVerifyOk cfg id cred = true) (hsrd : eng.srdOk d = true)
    (hc : lookupK id s.connections = none) (hq : lookupK id s.candidateQueues = none) :
    senderRun cfg eng s
      ((cs.map fun c => SIn.msg (Msg.candidate id c))
        ++ [SIn.msg (Msg.invoke id cred), SIn.msg (Msg.answer id d)])
      = ({ s with connections := setK id { token := s.nextToken, timerArmed := decide (0 < cfg.connectionTimeout), connected := false, remoteSet := true } s.connections, nextToken := s.nextToken + 1 },
         ((if decide (0 < cfg.connectionTimeout) then [Out.armTimer id s.nextToken] else [])
           ++ [Out.msgOffer id]) ++ drainOuts eng s.nextToken id cs) := by
  cases cs with
  | nil =>
    rw [List.map_nil, List.nil_append]
    rw [senderRun_inv_ans cfg eng id cred d s hself hv hsrd hc]
    simp [eraseK_of_lookupK_none hq, hq, drainOuts]
  | cons c0 cs0 =>
    rw [senderRun_append, senderRun_cand_bufferStart cfg eng id c0 cs0 s hself hc hq]
    have hmid := senderRun_inv_ans cfg eng id cred d
      { s with candidateQueues := setK id (c0 :: cs0) s.candidateQueues } hself hv hsrd hc
    simp only [hmid]
    simp [eraseK_setK_of_none _ hq]

theorem senderRun_directRoute (cfg : SCfg) (eng : Engine) (id : PeerId) (cred : Cred)
    (d : Desc) (cs : List Cand) (s : SState) (hself : id ≠ cfg.selfId)
    (hv : senderVerifyOk cfg id cred = true) (hsrd : eng.srdOk d = true)
    (hc : lookupK id s.connections = none) (hq : lookupK id s.candidateQueues = none) :
    senderRun cfg eng s
      ([SIn.msg (Msg.invoke id cred), SIn.msg (Msg.answer id d)]
        ++ (cs.map fun c => SIn.msg (Msg.candidate id c)))
      = ({ s with connections := setK id { token := s.nextToken, timerArmed := decide (0 < cfg.connectionTimeout), connected := false, remoteSet := true } s.connections, nextToken := s.nextToken + 1 },
         ((if decide (0 < cfg.connectionTimeout) then [Out.armTimer id s.nextToken] else [])
           ++ [Out.msgOffer id]) ++ drainOuts eng s.nextToken id cs) := by
  rw [senderRun_append, senderRun_inv_ans cfg eng id cred d s hself hv hsrd hc]
  have hlook2 : lookupK id ({ s with connections := setK id { token := s.nextToken, timerArmed := decide (0 < cfg.connectionTimeout), connected := false, remoteSet := true } s.connections, candidateQueues := eraseK id s.candidateQueues, nextToken := s.nextToken + 1 } : SState).connections
      = some { token := s.nextToken, timerArmed := decide (0 < cfg.connectionTimeout), connected := false, remoteSet := true } := by
    simp
  have hdir := senderRun_cand_direct cfg eng id cs
    { s with connections := setK id { token := s.nextToken, timerArmed := decide (0 < cfg.connectionTimeout), connected := false, remoteSet := true } s.connections, candidateQueues := eraseK id s.candidateQueues, nextToken := s.nextToken + 1 }
    { token := s.nextToken, timerArmed := decide (0 < cfg.connectionTimeout), connected := false, remoteSet := true }
    hself hlook2
  simp only [hdir]
  simp [eraseK_of_lookupK_none hq, hq, drainOuts]

theorem receiverStep_offer_full (rcfg : RCfg) (eng : Engine) (id : PeerId) (d : Desc)
    (r2 : RState) (hselfr : id ≠ rcfg.selfId) (hsrd : eng.srdOk d = true)
    (hc2 : lookupK id r2.connections = none) :
    receiverStep rcfg eng r2 (RIn.msg (Msg.offer id d))
      = ({ r2 with connections := setK id { token := r2.nextToken, timerArmed := decide (0 < rcfg.connectionTimeout), connected := false } r2.connections, candidateQueues := eraseK id r2.candidateQueues, nextToken := r2.nextToken + 1 },
         ((if decide (0 < rcfg.connectionTimeout) then [Out.armTimer id r2.nextToken] else [])
           ++ drainOuts eng r2.nextToken id ((lookupK id r2.candidateQueues).getD []))
           ++ [Out.msgAnswer id]) := by
  rw [receiverStep_offerAdmit rcfg eng r2 id d hselfr hc2]
  cases hqq : lookupK id r2.candidateQueues with
  | none =>
    rw [receiverAdmit_nodrain rcfg eng r2 id d hsrd hqq]
    simp [eraseK_of_lookupK_none hqq, drainOuts]
  | some q =>
    rw [receiverAdmit_drain rcfg eng r2 id d q hsrd hqq]
    simp

theorem receiverRun_buffered (rcfg : RCfg) (eng : Engine) (id : PeerId) (d : Desc)
    (cs : List Cand) (r : RState) (hselfr : id ≠ rcfg.selfId) (hsrd : eng.srdOk d = true)
    (hcr : lookupK id r.connections = none) (hqr : lookupK id r.candidateQueues = none) :
    receiverRun rcfg eng r
      ((cs.map fun c => RIn.msg (Msg.candidate id c)) ++ [RIn.msg (Msg.offer id d)])
      = ({ r with connections := setK id { token := r.nextToken, timerArmed := decide (0 < rcfg.connectionTimeout), connected := false } r.connections, nextToken := r.nextToken + 1 },
         ((if decide (0 < rcfg.connectionTimeout) then [Out.armTimer id r.nextToken] else [])
           ++ drainOuts eng r.nextToken id cs) ++ [Out.msgAnswer id]) := by
  cases cs with
  | nil =>
    rw [List.map_nil, List.nil_append, receiverRun_single,
      receiverStep_offer_full rcfg eng id d r hselfr hsrd hcr]
    simp [eraseK_of_lookupK_none hqr, hqr, drainOuts]
  | cons c0 cs0 =>
    rw [receiverRun_append, receiverRun_cand_bufferStart rcfg eng id c0 cs0 r hselfr hcr hqr]
    have hmid := receiverStep_offer_full rcfg eng id d
      { r with candidateQueues := setK id (c0 :: cs0) r.candidateQueues } hselfr hsrd hcr
    simp only [receiverRun_single, hmid]
    simp [eraseK_setK_of_none _ hqr]

theorem receiverRun_directRoute (rcfg : RCfg) (eng : Engine) (id : PeerId) (d : Desc)
    (cs : List Cand) (r : RState) (hselfr : id ≠ rcfg.selfId) (hsrd : eng.srdOk d = true)
    (hcr : lookupK id r.connections = none) (hqr : lookupK id r.candidateQueues = none) :
    receiverRun rcfg eng r
      ([RIn.msg (Msg.offer id d)] ++ (cs.map fun c => RIn.msg (Msg.candidate id c)))
      = ({ r with connections := setK id { token := r.nextToken, timerArmed := decide (0 < rcfg.connectionTimeout), connected := false } r.connections, nextToken := r.nextToken + 1 },
         ((if decide (0 < rcfg.connectionTimeout) then [Out.armTimer id r.nextToken] else [])
           ++ [Out.msgAnswer id]) ++ drainOuts eng r.nextToken id cs) := by
  rw [receiverRun_append, receiverRun_single,
    receiverStep_offer_full rcfg eng id d r hselfr hsrd hcr]
  have hlook2 : lookupK id ({ r with connections := setK id { token := r.nextToken, timerArmed := decide (0 < rcfg.connectionTimeout), connected := false } r.connections, candidateQueues := eraseK id r.candidateQueues, nextToken := r.nextToken + 1 } : RState).connections
      = some { token := r.nextToken, timerArmed := decide (0 < rcfg.connectionTimeout), connected := false } := by
    simp
  have hdir := receiverRun_cand_direct rcfg eng id cs
    { r with connections := setK id { token := r.nextToken, timerArmed := decide (0 < rcfg.connectionTimeout), connected := false } r.connections, candidateQueues := eraseK id r.candidateQueues, nextToken := r.nextToken + 1 }
    { token := r.nextToken, timerArmed := decide (0 < rcfg.connectionTimeout), connected := false }
    hselfr hlook2
  simp only [hdir]
  simp [eraseK_of_lookupK_none hqr, hqr, drainOuts]

/-- C2: candidate messages arriving before a Connection exists are appended
to the per-peer pending queue in arrival order; the drain performed right
after the remote description is set applies them to the engine in exactly
the order direct application would have used (for the Sender the two
schedules even produce identical states and identical full effect lists);
the buffer is deleted by the drain, and candidates arriving after the drain
are applied to the engine directly. -/
theorem claim_C2 (cfg : SCfg) (rcfg : RCfg) (eng : Engine) (s : SState) (r : RState)
    (id : PeerId) (cred : Cred) (d : Desc) (cs : List Cand)
    (hself : id ≠ cfg.selfId) (hc : lookupK id s.connections = none)
    (hq : lookupK id s.candidateQueues = none)
    (hv : senderVerifyOk cfg id cred = true) (hsrd : eng.srdOk d = true)
    (hselfr : id ≠ rcfg.selfId) (hcr : lookupK id r.connections = none)
    (hqr : lookupK id r.candidateQueues = none) :
    senderRun cfg eng s
        ((cs.map fun c => SIn.msg (Msg.candidate id c))
          ++ [SIn.msg (Msg.invoke id cred), SIn.msg (Msg.answer id d)])
      = senderRun cfg eng s
        ([SIn.msg (Msg.invoke id cred), SIn.msg (Msg.answer id d)]
          ++ (cs.map fun c => SIn.msg (Msg.candidate id c)))
    ∧ lookupK id (senderRun cfg eng s
        ((cs.map fun c => SIn.msg (Msg.candidate id c))
          ++ [SIn.msg (Msg.invoke id cred), SIn.msg (Msg.answer id d)])).1.candidateQueues = none
    ∧ (∀ (c0 : Cand) (cs0 : List Cand),
        lookupK id (senderRun cfg eng s
          ((c0 :: cs0).map fun c => SIn.msg (Msg.candidate id c))).1.candidateQueues
          = some (c0 :: cs0))
    ∧ (∀ c2 : Cand,
        senderStep cfg eng
          (senderRun cfg eng s
            ((cs.map fun c => SIn.msg (Msg.candidate id c))
              ++ [SIn.msg (Msg.invoke id cred), SIn.msg (Msg.answer id d)])).1
          (SIn.msg (Msg.candidate id c2))
          = ((senderRun cfg eng s
              ((cs.map fun c => SIn.msg (Msg.candidate id c))
                ++ [SIn.msg (Msg.invoke id cred), SIn.msg (Msg.answer id d)])).1,
             drainOuts eng s.nextToken id [c2]))
    ∧ (receiverRun rcfg eng r
        ((cs.map fun c => RIn.msg (Msg.candidate id c)) ++ [RIn.msg (Msg.offer id d)])).1
      = (receiverRun rcfg eng r
        ([RIn.msg (Msg.offer id d)] ++ (cs.map fun c => RIn.msg (Msg.candidate id c)))).1
    ∧ applyCands (receiverRun rcfg eng r
        ((cs.map fun c => RIn.msg (Msg.candidate id c)) ++ [RIn.msg (Msg.offer id d)])).2
      = applyCands (receiverRun rcfg eng r
        ([RIn.msg (Msg.offer id d)] ++ (cs.map fun c => RIn.msg (Msg.candidate id c)))).2
    ∧ lookupK id (receiverRun rcfg eng r
        ((cs.map fun c => RIn.msg (Msg.candidate id c))
          ++ [RIn.msg (Msg.offer id d)])).1.candidateQueues = none := by
  have hbufS := senderRun_buffered cfg eng id cred d cs s hself hv hsrd hc hq
  have hdirS := senderRun_directRoute cfg eng id cred d cs s hself hv hsrd hc hq
  have hbufR := receiverRun_buffered rcfg eng id d cs r hselfr hsrd hcr hqr
  have hdirR := receiverRun_directRoute rcfg eng id d cs r hselfr hsrd hcr hqr
  refine ⟨?_, ?_, ?_, ?_, ?_, ?_, ?_⟩
  · rw [hbufS, hdirS]
  · rw [hbufS]
    simpa using hq
  · intro c0 cs0
    rw [senderRun_cand_bufferStart cfg eng id c0 cs0 s hself hc hq]
    simp
  · intro c2
    rw [hbufS]
    by_cases hok : eng.candOk c2 <;>
      simp [senderStep, senderHandleMsg, hself, drainOuts, hok]
  · rw [hbufR, hdirR]
  · rw [hbufR, hdirR]
    simp only [applyCands_append]
    by_cases harm : (0 : Int) < rcfg.connectionTimeout <;>
      simp [harm, applyCands, applyCands_append]
  · rw [hbufR]
    simpa using hqr

/-- C2 witness: a concrete two-candidate exchange where buffering then
draining and direct application coincide. -/
theorem claim_C2_witness :
    senderRun cfgEx engEx SState.init
        (([4, 5].map fun c => SIn.msg (Msg.candidate 1 c))
          ++ [SIn.msg (Msg.invoke 1 7), SIn.msg (Msg.answer 1 3)])
      = senderRun cfgEx engEx SState.init
        ([SIn.msg (Msg.invoke 1 7), SIn.msg (Msg.answer 1 3)]
          ++ ([4, 5].map fun c => SIn.msg (Msg.candidate 1 c))) := by
  have h := claim_C2 cfgEx rcfgEx engEx SState.init RState.init 1 7 3 [4, 5]
    (by decide) (by decide) (by decide) (by decide) (by decide)
    (by decide) (by decide) (by decide)
  exact h.1


/-! ## Candidate-application errors are non-fatal (C8) -/

/-- C8: when the engine rejects an applied candidate for a connection whose
remote description is set, the only effect is an `error` event for that
peer id — the state (registry included) is completely unchanged, so the
connection is not disposed and subsequent messages are processed from the
very same state. -/
theorem claim_C8 (cfg : SCfg) (rcfg : RCfg) (eng : Engine) (s : SState) (r : RState)
    (id : PeerId) (c : Cand) (sc : SConn) (rc : RConn)
    (hself : id ≠ cfg.selfId) (hselfr : id ≠ rcfg.selfId)
    (hs : lookupK id s.connections = some sc) (_hrm : sc.remoteSet = true)
    (hr : lookupK id r.connections = some rc)
    (hcand : eng.candOk c = false) :
    senderStep cfg eng s (SIn.msg (Msg.candidate id c))
      = (s, [Out.applyCand sc.token c, Out.evError id Err.engine])
    ∧ receiverStep rcfg eng r (RIn.msg (Msg.candidate id c))
      = (r, [Out.applyCand rc.token c, Out.evError id Err.engine]) := by
  constructor
  · simp [senderStep, senderHandleMsg, hself, hs, hcand]
  · simp [receiverStep, receiverHandleMsg, hselfr, hr, hcand]

/-- C8 witness: a rejected candidate at a Sender connection with the remote
description set surfaces only as an error event. -/
theorem claim_C8_witness :
    senderStep cfgEx engRej ⟨[(1, ⟨0, true, false, true⟩)], [], 1⟩ (SIn.msg (Msg.candidate 1 4))
      = (⟨[(1, ⟨0, true, false, true⟩)], [], 1⟩, [Out.applyCand 0 4, Out.evError 1 Err.engine]) := by
  have h := claim_C8 cfgEx rcfgEx engRej ⟨[(1, ⟨0, true, false, true⟩)], [], 1⟩ rStateEx 1 4
    ⟨0, true, false, true⟩ rconnEx (by decide) (by decide) (by decide) (by decide)
    (by decide) (by decide)
  exact h.1

/-! ## Discovery-ping decay (C7) -/

theorem receiverStep_ping_eq (cfg : RCfg) (eng : Engine) (r2 : RState) (m : Msg) :
    (receiverStep cfg eng r2 (RIn.msg m)).1.ping = r2.ping := by
  cases m with
  | invoke id cred =>
    simp only [receiverStep, receiverHandleMsg]
    split
    · rfl
    · split <;> rfl
  | offer id d =>
    simp only [receiverStep, receiverHandleMsg]
    split
    · rfl
    · split
      · rfl
      · simp only [receiverAdmit]
        split
        · split <;> rfl
        · rfl
  | candidate id c =>
    simp only [receiverStep, receiverHandleMsg]
    split
    · rfl
    · split <;> rfl
  | dispose id =>
    simp only [receiverStep, receiverHandleMsg]
    split
    · rfl
    · split <;> rfl
  | answer id d => rfl
  | sync id st => rfl

theorem receiverStep_ping_le (cfg : RCfg) (eng : Engine) (r2 : RState) (i : RIn)
    (hle : r2.ping ≤ cfg.pingAttempts) :
    (receiverStep cfg eng r2 i).1.ping ≤ cfg.pingAttempts := by
  cases i with
  | msg m => rw [receiverStep_ping_eq]; exact hle
  | timerFire id tok =>
    simp only [receiverStep]
    split
    · exact hle
    · split
      · split
        · exact hle
        · exact hle
      · exact hle
  | ice id tok st =>
    simp only [receiverStep]
    split
    · exact hle
    · split
      · split <;> exact hle
      · exact hle
  | pingTick =>
    simp only [receiverStep, receiverPingTick]
    by_cases hlen : 0 < r2.connections.length
    · simp only [hlen, if_true]
      by_cases hp : 0 < cfg.pingAttempts
      · simp [hp]
      · simp [hp]
    · simp only [hlen, if_false]
      by_cases hp : 0 < r2.ping
      · simp [hp]
        omega
      · simp [hp]
        omega

theorem receiverRun_ping_empty (cfg : RCfg) (eng : Engine) :
    ∀ (n : Nat) (s : RState), s.connections = [] →
    countP isBroadcastInvoke
      (receiverRun cfg eng s (List.replicate n RIn.pingTick)).2 = min n s.ping := by
  intro n
  induction n with
  | zero =>
    intro s hconn
    simp [receiverRun]
  | succ m ih =>
    intro s hconn
    rw [List.replicate_succ]
    have hlen : ¬0 < s.connections.length := by simp [hconn]
    by_cases hp : 0 < s.ping
    · have hstep : receiverStep cfg eng s RIn.pingTick
          = ({ s with ping := s.ping - 1 }, [Out.msgInvoke none]) := by
        simp [receiverStep, receiverPingTick, hlen, hp]
      simp only [receiverRun, hstep]
      have hrec := ih { s with ping := s.ping - 1 } hconn
      simp [countP, isBroadcastInvoke, hrec]
      omega
    · have hstep : receiverStep cfg eng s RIn.pingTick = (s, []) := by
        simp [receiverStep, receiverPingTick, hlen, hp]
      simp only [receiverRun, hstep]
      have hrec := ih s hconn
      simp [hrec]
      omega

/-- C7: on each discovery-ping tick, a Receiver with at least one registered
Connection reloads the decaying counter to `pingAttempts` and broadcasts an
`invoke` exactly when the counter is positive (consuming one unit); the
counter never exceeds `pingAttempts` along any step; and once the registry
is empty a run of n ticks emits exactly `min n ping` further broadcasts —
hence at most `pingAttempts` of them — after which the timer is silent
until a new Connection is registered. -/
theorem claim_C7 (cfg : RCfg) (eng : Engine) (s : RState) (n : Nat) :
    (s.connections ≠ [] →
       (receiverPingTick cfg s).1.ping = cfg.pingAttempts - 1
       ∧ (receiverPingTick cfg s).2
           = if 0 < cfg.pingAttempts then [Out.msgInvoke none] else [])
    ∧ (∀ (i : RIn) (r2 : RState), r2.ping ≤ cfg.pingAttempts →
        (receiverStep cfg eng r2 i).1.ping ≤ cfg.pingAttempts)
    ∧ (s.connections = [] →
        countP isBroadcastInvoke
          (receiverRun cfg eng s (List.replicate n RIn.pingTick)).2 = min n s.ping)
    ∧ (s.connections = [] → s.ping ≤ cfg.pingAttempts →
        countP isBroadcastInvoke
          (receiverRun cfg eng s (List.replicate n RIn.pingTick)).2 ≤ cfg.pingAttempts) := by
  refine ⟨?_, ?_, ?_, ?_⟩
  · intro hne
    have hlen : 0 < s.connections.length := List.length_pos.mpr hne
    by_cases hp : 0 < cfg.pingAttempts
    · constructor <;> simp [receiverPingTick, hlen, hp]
    · have hp0 : cfg.pingAttempts = 0 := by omega
      constructor <;> simp [receiverPingTick, hlen, hp0]
  · intro i r2 hle
    exact receiverStep_ping_le cfg eng r2 i hle
  · intro hconn
    exact receiverRun_ping_empty cfg eng n s hconn
  · intro hconn hle
    rw [receiverRun_ping_empty cfg eng n s hconn]
    omega

/-- C7 witness: from an empty registry with two remaining attempts, five
ticks emit exactly two further broadcasts. -/
theorem claim_C7_witness :
    countP isBroadcastInvoke
      (receiverRun rcfgEx engEx ⟨[], [], 0, 2⟩ (List.replicate 5 RIn.pingTick)).2 = 2 := by
  have h := claim_C7 rcfgEx engEx ⟨[], [], 0, 2⟩ 5
  have h2 := h.2.2.1 rfl
  simpa using h2


/-! ## Disabled connect timer (C10) -/

theorem countP_timeout_senderDisposeOuts (id : PeerId) (c : SConn) (e : Option Err)
    (he : e ≠ some Err.timeout) :
    countP isTimeoutDispose (senderDisposeOuts id c e) = 0 := by
  cases e with
  | none => simp [senderDisposeOuts, countP, isTimeoutDispose]
  | some err => cases err <;> simp_all [senderDisposeOuts, countP, isTimeoutDispose]

theorem countP_arm_senderDisposeOuts (id : PeerId) (c : SConn) (e : Option Err) :
    countP isArmTimer (senderDisposeOuts id c e) = 0 := by
  simp [senderDisposeOuts, countP, isArmTimer]

theorem countP_timeout_receiverDisposeOuts (id : PeerId) (c : RConn) (e : Option Err)
    (he : e ≠ some Err.timeout) :
    countP isTimeoutDispose (receiverDisposeOuts id c e) = 0 := by
  cases e with
  | none => simp [receiverDisposeOuts, countP, isTimeoutDispose]
  | some err => cases err <;> simp_all [receiverDisposeOuts, countP, isTimeoutDispose]

theorem countP_arm_receiverDisposeOuts (id : PeerId) (c : RConn) (e : Option Err) :
    countP isArmTimer (receiverDisposeOuts id c e) = 0 := by
  simp [receiverDisposeOuts, countP, isArmTimer]

theorem senderStep_noTimer (cfg : SCfg) (eng : Engine) (s : SState) (i : SIn)
    (hcfg : cfg.connectionTimeout ≤ 0)
    (hu : ∀ p ∈ s.connections, p.2.timerArmed = false) :
    (∀ p ∈ (senderStep cfg eng s i).1.connections, p.2.timerArmed = false)
    ∧ countP isTimeoutDispose (senderStep cfg eng s i).2 = 0
    ∧ countP isArmTimer (senderStep cfg eng s i).2 = 0 := by
  have harm : decide (0 < cfg.connectionTimeout) = false := by
    simp
    omega
  cases i with
  | msg m =>
    cases m with
    | invoke id cred =>
      by_cases h1 : id = cfg.selfId
      · have hst : senderStep cfg eng s (SIn.msg (Msg.invoke id cred)) = (s, []) := by
          simp [senderStep, senderHandleMsg, h1]
        rw [hst]
        exact ⟨hu, rfl, rfl⟩
      · cases hc : lookupK id s.connections with
        | some c =>
          have hst : senderStep cfg eng s (SIn.msg (Msg.invoke id cred)) = (s, []) := by
            simp [senderStep, senderHandleMsg, h1, hc]
          rw [hst]
          exact ⟨hu, rfl, rfl⟩
        | none =>
          by_cases hv : senderVerifyOk cfg id cred
          · have hst : senderStep cfg eng s (SIn.msg (Msg.invoke id cred))
                = senderAdmit cfg s id := by
              simp [senderStep, senderHandleMsg, h1, hc, hv]
            rw [hst]
            refine ⟨?_, ?_, ?_⟩
            · intro p hp
              simp only [senderAdmit] at hp
              rcases mem_setK hp with hpe | hp2
              · rw [hpe]
                simpa using harm
              · exact hu p hp2
            · simp [senderAdmit, harm, countP, isTimeoutDispose]
            · simp [senderAdmit, harm, countP, isArmTimer]
          · have hst : senderStep cfg eng s (SIn.msg (Msg.invoke id cred)) = (s, []) := by
              simp [senderStep, senderHandleMsg, h1, hc, hv]
            rw [hst]
            exact ⟨hu, rfl, rfl⟩
    | answer id d =>
      by_cases h1 : id = cfg.selfId
      · have hst : senderStep cfg eng s (SIn.msg (Msg.answer id d)) = (s, []) := by
          simp [senderStep, senderHandleMsg, h1]
        rw [hst]
        exact ⟨hu, rfl, rfl⟩
      · cases hc : lookupK id s.connections with
        | none =>
          have hst : senderStep cfg eng s (SIn.msg (Msg.answer id d)) = (s, []) := by
            simp [senderStep, senderHandleMsg, h1, hc]
          rw [hst]
          exact ⟨hu, rfl, rfl⟩
        | some c =>
          by_cases hsrd : eng.srdOk d
          · cases hq : lookupK id s.candidateQueues with
            | some q =>
              have hst := senderStep_answer_drain cfg eng id s c d q h1 hc hsrd hq
              rw [hst]
              refine ⟨?_, ?_, ?_⟩
              · intro p hp
                rcases mem_setK hp with hpe | hp2
                · rw [hpe]
                  exact hu (id, c) (lookupK_mem hc)
                · exact hu p hp2
              · exact countP_drainOuts_eq_zero eng c.token id q _ (fun c2 => rfl) rfl
              · exact countP_drainOuts_eq_zero eng c.token id q _ (fun c2 => rfl) rfl
            | none =>
              have hst := senderStep_answer_nodrain cfg eng id s c d h1 hc hsrd hq
              rw [hst]
              refine ⟨?_, rfl, rfl⟩
              intro p hp
              rcases mem_setK hp with hpe | hp2
              · rw [hpe]
                exact hu (id, c) (lookupK_mem hc)
              · exact hu p hp2
          · have hst : senderStep cfg eng s (SIn.msg (Msg.answer id d))
                = senderDispose s id c (some Err.engine) := by
              simp [senderStep, senderHandleMsg, h1, hc, hsrd]
            rw [hst]
            refine ⟨?_, ?_, ?_⟩
            · intro p hp
              exact hu p (mem_eraseK hp)
            · exact countP_timeout_senderDisposeOuts id c (some Err.engine) (by simp)
            · exact countP_arm_senderDisposeOuts id c (some Err.engine)
    | candidate id cand =>
      by_cases h1 : id = cfg.selfId
      · have hst : senderStep cfg eng s (SIn.msg (Msg.candidate id cand)) = (s, []) := by
          simp [senderStep, senderHandleMsg, h1]
        rw [hst]
        exact ⟨hu, rfl, rfl⟩
      · cases hc : lookupK id s.connections with
        | none =>
          have hst : senderStep cfg eng s (SIn.msg (Msg.candidate id cand))
              = ({ s with candidateQueues := setK id ((lookupK id s.candidateQueues).getD [] ++ [cand]) s.candidateQueues }, []) := by
            simp [senderStep, senderHandleMsg, h1, hc]
          rw [hst]
          exact ⟨hu, rfl, rfl⟩
        | some c =>
          have hst : senderStep cfg eng s (SIn.msg (Msg.candidate id cand))
              = (s, Out.applyCand c.token cand ::
                  (if eng.candOk cand then [] else [Out.evError id Err.engine])) := by
            simp [senderStep, senderHandleMsg, h1, hc]
          rw [hst]
          refine ⟨hu, ?_, ?_⟩ <;>
            by_cases hok : eng.candOk cand <;>
              simp [hok, countP, isTimeoutDispose, isArmTimer]
    | offer id d =>
      exact ⟨hu, rfl, rfl⟩
    | sync id st =>
      exact ⟨hu, rfl, rfl⟩
    | dispose id =>
      exact ⟨hu, rfl, rfl⟩
  | timerFire id tok =>
    cases hc : lookupK id s.connections with
    | none =>
      have hst : senderStep cfg eng s (SIn.timerFire id tok) = (s, []) := by
        simp [senderStep, hc]
      rw [hst]
      exact ⟨hu, rfl, rfl⟩
    | some c =>
      have hfa : c.timerArmed = false := hu (id, c) (lookupK_mem hc)
      have hst : senderStep cfg eng s (SIn.timerFire id tok) = (s, []) := by
        by_cases ht : c.token = tok <;> simp [senderStep, hc, ht, hfa]
      rw [hst]
      exact ⟨hu, rfl, rfl⟩
  | ice id tok st =>
    cases hc : lookupK id s.connections with
    | none =>
      have hst : senderStep cfg eng s (SIn.ice id tok st) = (s, []) := by
        simp [senderStep, hc]
      rw [hst]
      exact ⟨hu, rfl, rfl⟩
    | some c =>
      by_cases ht : c.token = tok
      · cases st with
        | connected =>
          have hst : senderStep cfg eng s (SIn.ice id tok IceSt.connected)
              = ({ s with connections := setK id { c with timerArmed := false, connected := true } s.connections },
                 [Out.clearTimer tok, Out.evConnect id tok]) := by
            simp [senderStep, hc, ht]
          rw [hst]
          refine ⟨?_, ?_, ?_⟩
          · intro p hp
            rcases mem_setK hp with hpe | hp2
            · rw [hpe]
            · exact hu p hp2
          · simp [countP, isTimeoutDispose]
          · simp [countP, isArmTimer]
        | disconnected =>
          have hst : senderStep cfg eng s (SIn.ice id tok IceSt.disconnected)
              = senderDispose s id c none := by
            simp [senderStep, hc, ht]
          rw [hst]
          refine ⟨?_, ?_, ?_⟩
          · intro p hp
            exact hu p (mem_eraseK hp)
          · exact countP_timeout_senderDisposeOuts id c none (by simp)
          · exact countP_arm_senderDisposeOuts id c none
        | failed =>
          have hst : senderStep cfg eng s (SIn.ice id tok IceSt.failed)
              = senderDispose s id c (some Err.iceFailed) := by
            simp [senderStep, hc, ht]
          rw [hst]
          refine ⟨?_, ?_, ?_⟩
          · intro p hp
            exact hu p (mem_eraseK hp)
          · exact countP_timeout_senderDisposeOuts id c (some Err.iceFailed) (by simp)
          · exact countP_arm_senderDisposeOuts id c (some Err.iceFailed)
      · have hst : senderStep cfg eng s (SIn.ice id tok st) = (s, []) := by
          cases st <;> simp [senderStep, hc, ht]
        rw [hst]
        exact ⟨hu, rfl, rfl⟩


theorem receiverStep_noTimer (rcfg : RCfg) (eng : Engine) (r : RState) (i : RIn)
    (hcfg : rcfg.connectionTimeout ≤ 0)
    (hu : ∀ p ∈ r.connections, p.2.timerArmed = false) :
    (∀ p ∈ (receiverStep rcfg eng r i).1.connections, p.2.timerArmed = false)
    ∧ countP isTimeoutDispose (receiverStep rcfg eng r i).2 = 0
    ∧ countP isArmTimer (receiverStep rcfg eng r i).2 = 0 := by
  have harm : decide (0 < rcfg.connectionTimeout) = false := by
    simp
    omega
  cases i with
  | msg m =>
    cases m with
    | invoke id cred =>
      by_cases h1 : id = rcfg.selfId
      · have hst : receiverStep rcfg eng r (RIn.msg (Msg.invoke id cred)) = (r, []) := by
          simp [receiverStep, receiverHandleMsg, h1]
        rw [hst]
        exact ⟨hu, rfl, rfl⟩
      · by_cases hc : (lookupK id r.connections).isSome
        · have hst : receiverStep rcfg eng r (RIn.msg (Msg.invoke id cred)) = (r, []) := by
            simp [receiverStep, receiverHandleMsg, h1, hc]
          rw [hst]
          exact ⟨hu, rfl, rfl⟩
        · have hst : receiverStep rcfg eng r (RIn.msg (Msg.invoke id cred))
              = (r, [Out.msgInvoke (some id)]) := by
            simp [receiverStep, receiverHandleMsg, h1, hc]
          rw [hst]
          refine ⟨hu, ?_, ?_⟩ <;> simp [countP, isTimeoutDispose, isArmTimer]
    | offer id d =>
      by_cases h1 : id = rcfg.selfId
      · have hst : receiverStep rcfg eng r (RIn.msg (Msg.offer id d)) = (r, []) := by
          simp [receiverStep, receiverHandleMsg, h1]
        rw [hst]
        exact ⟨hu, rfl, rfl⟩
      · cases hc : lookupK id r.connections with
        | some c =>
          have hst : receiverStep rcfg eng r (RIn.msg (Msg.offer id d)) = (r, []) := by
            simp [receiverStep, receiverHandleMsg, h1, hc]
          rw [hst]
          exact ⟨hu, rfl, rfl⟩
        | none =>
          rw [receiverStep_offerAdmit rcfg eng r id d h1 hc]
          by_cases hsrd : eng.srdOk d
          · cases hq : lookupK id r.candidateQueues with
            | none =>
              rw [receiverAdmit_nodrain rcfg eng r id d hsrd hq]
              refine ⟨?_, ?_, ?_⟩
              · intro p hp
                rcases mem_setK hp with hpe | hp2
                · rw [hpe]
                  simpa using harm
                · exact hu p hp2
              · simp [harm, countP, isTimeoutDispose]
              · simp [harm, countP, isArmTimer]
            | some q =>
              rw [receiverAdmit_drain rcfg eng r id d q hsrd hq]
              have hz1 := countP_drainOuts_eq_zero eng r.nextToken id q isTimeoutDispose
                (fun c2 => rfl) rfl
              have hz2 := countP_drainOuts_eq_zero eng r.nextToken id q isArmTimer
                (fun c2 => rfl) rfl
              refine ⟨?_, ?_, ?_⟩
              · intro p hp
                rcases mem_setK hp with hpe | hp2
                · rw [hpe]
                  simpa using harm
                · exact hu p hp2
              · simp [harm, countP, isTimeoutDispose, hz1]
              · simp [harm, countP, isArmTimer, hz2]
          · have hst : receiverAdmit rcfg eng r id d
                = ({ r with connections := eraseK id (setK id { token := r.nextToken, timerArmed := decide (0 < rcfg.connectionTimeout), connected := false } r.connections), candidateQueues := r.candidateQueues, nextToken := r.nextToken + 1 },
                   (if decide (0 < rcfg.connectionTimeout) then [Out.armTimer id r.nextToken] else [])
                     ++ receiverDisposeOuts id { token := r.nextToken, timerArmed := decide (0 < rcfg.connectionTimeout), connected := false } (some Err.engine)) := by
              simp [receiverAdmit, hsrd, receiverDispose]
            rw [hst]
            refine ⟨?_, ?_, ?_⟩
            · intro p hp
              rcases mem_setK (mem_eraseK hp) with hpe | hp2
              · rw [hpe]
                simpa using harm
              · exact hu p hp2
            · have hz := countP_timeout_receiverDisposeOuts id
                { token := r.nextToken, timerArmed := false, connected := false }
                (some Err.engine) (by simp)
              simp [harm, hz]
            · have hz := countP_arm_receiverDisposeOuts id
                { token := r.nextToken, timerArmed := false, connected := false }
                (some Err.engine)
              simp [harm, hz]
    | candidate id cand =>
      by_cases h1 : id = rcfg.selfId
      · have hst : receiverStep rcfg eng r (RIn.msg (Msg.candidate id cand)) = (r, []) := by
          simp [receiverStep, receiverHandleMsg, h1]
        rw [hst]
        exact ⟨hu, rfl, rfl⟩
      · cases hc : lookupK id r.connections with
        | none =>
          have hst : receiverStep rcfg eng r (RIn.msg (Msg.candidate id cand))
              = ({ r with candidateQueues := setK id ((lookupK id r.candidateQueues).getD [] ++ [cand]) r.candidateQueues }, []) := by
            simp [receiverStep, receiverHandleMsg, h1, hc]
          rw [hst]
          exact ⟨hu, rfl, rfl⟩
        | some c =>
          have hst : receiverStep rcfg eng r (RIn.msg (Msg.candidate id cand))
              = (r, Out.applyCand c.token cand ::
                  (if eng.candOk cand then [] else [Out.evError id Err.engine])) := by
            simp [receiverStep, receiverHandleMsg, h1, hc]
          rw [hst]
          refine ⟨hu, ?_, ?_⟩ <;>
            by_cases hok : eng.candOk cand <;>
              simp [hok, countP, isTimeoutDispose, isArmTimer]
    | dispose id =>
      by_cases h1 : id = rcfg.selfId
      · have hst : receiverStep rcfg eng r (RIn.msg (Msg.dispose id)) = (r, []) := by
          simp [receiverStep, receiverHandleMsg, h1]
        rw [hst]
        exact ⟨hu, rfl, rfl⟩
      · cases hc : lookupK id r.connections with
        | none =>
          have hst : receiverStep rcfg eng r (RIn.msg (Msg.dispose id)) = (r, []) := by
            simp [receiverStep, receiverHandleMsg, h1, hc]
          rw [hst]
          exact ⟨hu, rfl, rfl⟩
        | some c =>
          have hst : receiverStep rcfg eng r (RIn.msg (Msg.dispose id))
              = receiverDispose r id c none := by
            simp [receiverStep, receiverHandleMsg, h1, hc]
          rw [hst]
          refine ⟨?_, ?_, ?_⟩
          · intro p hp
            exact hu p (mem_eraseK hp)
          · exact countP_timeout_receiverDisposeOuts id c none (by simp)
          · exact countP_arm_receiverDisposeOuts id c none
    | answer id d =>
      exact ⟨hu, rfl, rfl⟩
    | sync id st =>
      exact ⟨hu, rfl, rfl⟩
  | timerFire id tok =>
    cases hc : lookupK id r.connections with
    | none =>
      have hst : receiverStep rcfg eng r (RIn.timerFire id tok) = (r, []) := by
        simp [receiverStep, hc]
      rw [hst]
      exact ⟨hu, rfl, rfl⟩
    | some c =>
      have hfa : c.timerArmed = false := hu (id, c) (lookupK_mem hc)
      have hst : receiverStep rcfg eng r (RIn.timerFire id tok) = (r, []) := by
        by_cases ht : c.token = tok <;> simp [receiverStep, hc, ht, hfa]
      rw [hst]
      exact ⟨hu, rfl, rfl⟩
  | ice id tok st =>
    cases hc : lookupK id r.connections with
    | none =>
      have hst : receiverStep rcfg eng r (RIn.ice id tok st) = (r, []) := by
        simp [receiverStep, hc]
      rw [hst]
      exact ⟨hu, rfl, rfl⟩
    | some c =>
      by_cases ht : c.token = tok
      · cases st with
        | connected =>
          have hst : receiverStep rcfg eng r (RIn.ice id tok IceSt.connected)
              = ({ r with connections := setK id { c with timerArmed := false, connected := true } r.connections },
                 [Out.clearTimer tok, Out.evConnect id tok]) := by
            simp [receiverStep, hc, ht]
          rw [hst]
          refine ⟨?_, ?_, ?_⟩
          · intro p hp
            rcases mem_setK hp with hpe | hp2
            · rw [hpe]
            · exact hu p hp2
          · simp [countP, isTimeoutDispose]
          · simp [countP, isArmTimer]
        | disconnected =>
          have hst : receiverStep rcfg eng r (RIn.ice id tok IceSt.disconnected)
              = receiverDispose r id c none := by
            simp [receiverStep, hc, ht]
          rw [hst]
          refine ⟨?_, ?_, ?_⟩
          · intro p hp
            exact hu p (mem_eraseK hp)
          · exact countP_timeout_receiverDisposeOuts id c none (by simp)
          · exact countP_arm_receiverDisposeOuts id c none
        | failed =>
          have hst : receiverStep rcfg eng r (RIn.ice id tok IceSt.failed)
              = receiverDispose r id c (some Err.iceFailed) := by
            simp [receiverStep, hc, ht]
          rw [hst]
          refine ⟨?_, ?_, ?_⟩
          · intro p hp
            exact hu p (mem_eraseK hp)
          · exact countP_timeout_receiverDisposeOuts id c (some Err.iceFailed) (by simp)
          · exact countP_arm_receiverDisposeOuts id c (some Err.iceFailed)
      · have hst : receiverStep rcfg eng r (RIn.ice id tok st) = (r, []) := by
          cases st <;> simp [receiverStep, hc, ht]
        rw [hst]
        exact ⟨hu, rfl, rfl⟩
  | pingTick =>
    have hstate : (receiverStep rcfg eng r RIn.pingTick).1.connections = r.connections := by
      simp only [receiverStep, receiverPingTick]
      split <;> split <;> rfl
    have ht : countP isTimeoutDispose (receiverStep rcfg eng r RIn.pingTick).2 = 0 := by
      simp only [receiverStep, receiverPingTick]
      split <;> split <;> simp [countP, isTimeoutDispose]
    have ha : countP isArmTimer (receiverStep rcfg eng r RIn.pingTick).2 = 0 := by
      simp only [receiverStep, receiverPingTick]
      split <;> split <;> simp [countP, isArmTimer]
    refine ⟨?_, ht, ha⟩
    intro p hp
    rw [hstate] at hp
    exact hu p hp


theorem senderRun_noTimer (cfg : SCfg) (eng : Engine) (hcfg : cfg.connectionTimeout ≤ 0) :
    ∀ (ins : List SIn) (s : SState), (∀ p ∈ s.connections, p.2.timerArmed = false) →
    countP isTimeoutDispose (senderRun cfg eng s ins).2 = 0
    ∧ countP isArmTimer (senderRun cfg eng s ins).2 = 0 := by
  intro ins
  induction ins with
  | nil =>
    intro s hu
    exact ⟨rfl, rfl⟩
  | cons i rest ih =>
    intro s hu
    obtain ⟨hu1, ht, ha⟩ := senderStep_noTimer cfg eng s i hcfg hu
    obtain ⟨ht2, ha2⟩ := ih (senderStep cfg eng s i).1 hu1
    simp only [senderRun]
    constructor <;> simp [ht, ha, ht2, ha2]

theorem receiverRun_noTimer (rcfg : RCfg) (eng : Engine) (hcfg : rcfg.connectionTimeout ≤ 0) :
    ∀ (ins : List RIn) (r : RState), (∀ p ∈ r.connections, p.2.timerArmed = false) →
    countP isTimeoutDispose (receiverRun rcfg eng r ins).2 = 0
    ∧ countP isArmTimer (receiverRun rcfg eng r ins).2 = 0 := by
  intro ins
  induction ins with
  | nil =>
    intro r hu
    exact ⟨rfl, rfl⟩
  | cons i rest ih =>
    intro r hu
    obtain ⟨hu1, ht, ha⟩ := receiverStep_noTimer rcfg eng r i hcfg hu
    obtain ⟨ht2, ha2⟩ := ih (receiverStep rcfg eng r i).1 hu1
    simp only [receiverRun]
    constructor <;> simp [ht, ha, ht2, ha2]

/-- C10: a Sender or Receiver constructed with a non-positive
`connectionTimeout` never arms a connect timer at admission, and along any
input trace from a fresh start no `dispose` event carrying the timeout
error is ever dispatched — a never-connected Connection is only ever torn
down by the other triggers (remote dispose, engine disconnected/failed,
negotiation error, local stop). -/
theorem claim_C10 (cfg : SCfg) (rcfg : RCfg) (eng : Engine)
    (hcfg : cfg.connectionTimeout ≤ 0) (hrcfg : rcfg.connectionTimeout ≤ 0) :
    (∀ ins : List SIn,
       countP isTimeoutDispose (senderRun cfg eng SState.init ins).2 = 0
       ∧ countP isArmTimer (senderRun cfg eng SState.init ins).2 = 0)
    ∧ (∀ ins : List RIn,
       countP isTimeoutDispose (receiverRun rcfg eng RState.init ins).2 = 0
       ∧ countP isArmTimer (receiverRun rcfg eng RState.init ins).2 = 0) := by
  constructor
  · intro ins
    refine senderRun_noTimer cfg eng hcfg ins SState.init ?_
    intro p hp
    simp [SState.init] at hp
  · intro ins
    refine receiverRun_noTimer rcfg eng hrcfg ins RState.init ?_
    intro p hp
    simp [RState.init] at hp

/-- C10 witness: with connectionTimeout zero, an admission followed by a
timer-fire input produces no timer arming and no timeout dispose. -/
theorem claim_C10_witness :
    countP isTimeoutDispose
      (senderRun cfgNoTimeout engEx SState.init
        [SIn.msg (Msg.invoke 1 7), SIn.timerFire 1 0]).2 = 0
    ∧ countP isArmTimer
      (senderRun cfgNoTimeout engEx SState.init
        [SIn.msg (Msg.invoke 1 7), SIn.timerFire 1 0]).2 = 0 := by
  have h := claim_C10 cfgNoTimeout rcfgNoTimeout engEx (by decide) (by decide)
  exact h.1 [SIn.msg (Msg.invoke 1 7), SIn.timerFire 1 0]


/-! ## Timeout disposal and connection tokens (C3) -/

theorem mem_eraseK_ne {α : Type} {id : PeerId} {l : List (PeerId × α)}
    {p : PeerId × α} (h : p ∈ eraseK id l) : p.1 ≠ id := by
  induction l with
  | nil => simp [eraseK] at h
  | cons hd tl ih =>
    by_cases hk : hd.1 = id
    · simp only [eraseK, if_pos hk] at h
      exact ih h
    · simp only [eraseK, if_neg hk, List.mem_cons] at h
      rcases h with h | h
      · rw [h]
        exact hk
      · exact ih h

theorem connect_not_mem_senderDisposeOuts (id2 : PeerId) (t : Nat) (id : PeerId)
    (c : SConn) (e : Option Err) : Out.evConnect id2 t ∉ senderDisposeOuts id c e := by
  simp [senderDisposeOuts]

theorem connect_not_mem_receiverDisposeOuts (id2 : PeerId) (t : Nat) (id : PeerId)
    (c : RConn) (e : Option Err) : Out.evConnect id2 t ∉ receiverDisposeOuts id c e := by
  simp [receiverDisposeOuts]

theorem connect_not_mem_drainOuts (id2 : PeerId) (t : Nat) (eng : Engine) (tok : Nat)
    (id : PeerId) (q : List Cand) : Out.evConnect id2 t ∉ drainOuts eng tok id q := by
  intro h
  rcases mem_drainOuts h with ⟨c, hc⟩ | hc <;> simp at hc

theorem connect_not_mem_armOuts (b : Bool) (id3 : PeerId) (t3 : Nat) (id2 : PeerId)
    (t : Nat) : Out.evConnect id2 t ∉ (if b = true then [Out.armTimer id3 t3] else []) := by
  cases b <;> simp

theorem senderStep_track (cfg : SCfg) (eng : Engine) (s : SState) (i : SIn) :
    (∀ p ∈ (senderStep cfg eng s i).1.connections,
       (∃ q ∈ s.connections, q.2.token = p.2.token)
       ∨ (p.2.token = s.nextToken ∧ s.nextToken < (senderStep cfg eng s i).1.nextToken))
    ∧ s.nextToken ≤ (senderStep cfg eng s i).1.nextToken
    ∧ (∀ id2 t, Out.evConnect id2 t ∈ (senderStep cfg eng s i).2 →
        ∃ q ∈ s.connections, q.2.token = t) := by
  cases i with
  | msg m =>
    cases m with
    | invoke id cred =>
      by_cases h1 : id = cfg.selfId
      · have hst : senderStep cfg eng s (SIn.msg (Msg.invoke id cred)) = (s, []) := by
          simp [senderStep, senderHandleMsg, h1]
        rw [hst]
        exact ⟨fun p hp => Or.inl ⟨p, hp, rfl⟩, le_refl _, fun id2 t h => absurd h (by simp)⟩
      · cases hc : lookupK id s.connections with
        | some c =>
          have hst : senderStep cfg eng s (SIn.msg (Msg.invoke id cred)) = (s, []) := by
            simp [senderStep, senderHandleMsg, h1, hc]
          rw [hst]
          exact ⟨fun p hp => Or.inl ⟨p, hp, rfl⟩, le_refl _, fun id2 t h => absurd h (by simp)⟩
        | none =>
          by_cases hv : senderVerifyOk cfg id cred
          · have hst : senderStep cfg eng s (SIn.msg (Msg.invoke id cred))
                = senderAdmit cfg s id := by
              simp [senderStep, senderHandleMsg, h1, hc, hv]
            rw [hst]
            refine ⟨?_, ?_, ?_⟩
            · intro p hp
              simp only [senderAdmit] at hp
              rcases mem_setK hp with hpe | hp2
              · right
                rw [hpe]
                exact ⟨rfl, by simp [senderAdmit]⟩
              · exact Or.inl ⟨p, hp2, rfl⟩
            · simp [senderAdmit]
            · intro id2 t hmem
              simp only [senderAdmit] at hmem
              rcases List.mem_append.mp hmem with h | h
              · exact absurd h (connect_not_mem_armOuts _ _ _ _ _)
              · simp at h
          · have hst : senderStep cfg eng s (SIn.msg (Msg.invoke id cred)) = (s, []) := by
              simp [senderStep, senderHandleMsg, h1, hc, hv]
            rw [hst]
            exact ⟨fun p hp => Or.inl ⟨p, hp, rfl⟩, le_refl _, fun id2 t h => absurd h (by simp)⟩
    | answer id d =>
      by_cases h1 : id = cfg.selfId
      · have hst : senderStep cfg eng s (SIn.msg (Msg.answer id d)) = (s, []) := by
          simp [senderStep, senderHandleMsg, h1]
        rw [hst]
        exact ⟨fun p hp => Or.inl ⟨p, hp, rfl⟩, le_refl _, fun id2 t h => absurd h (by simp)⟩
      · cases hc : lookupK id s.connections with
        | none =>
          have hst : senderStep cfg eng s (SIn.msg (Msg.answer id d)) = (s, []) := by
            simp [senderStep, senderHandleMsg, h1, hc]
          rw [hst]
          exact ⟨fun p hp => Or.inl ⟨p, hp, rfl⟩, le_refl _, fun id2 t h => absurd h (by simp)⟩
        | some c =>
          by_cases hsrd : eng.srdOk d
          · cases hq : lookupK id s.candidateQueues with
            | some q =>
              have hst := senderStep_answer_drain cfg eng id s c d q h1 hc hsrd hq
              rw [hst]
              refine ⟨?_, le_refl _, ?_⟩
              · intro p hp
                rcases mem_setK hp with hpe | hp2
                · exact Or.inl ⟨(id, c), lookupK_mem hc, by rw [hpe]⟩
                · exact Or.inl ⟨p, hp2, rfl⟩
              · intro id2 t hmem
                exact absurd hmem (connect_not_mem_drainOuts _ _ _ _ _ _)
            | none =>
              have hst := senderStep_answer_nodrain cfg eng id s c d h1 hc hsrd hq
              rw [hst]
              refine ⟨?_, le_refl _, ?_⟩
              · intro p hp
                rcases mem_setK hp with hpe | hp2
                · exact Or.inl ⟨(id, c), lookupK_mem hc, by rw [hpe]⟩
                · exact Or.inl ⟨p, hp2, rfl⟩
              · intro id2 t hmem
                simp at hmem
          · have hst : senderStep cfg eng s (SIn.msg (Msg.answer id d))
                = senderDispose s id c (some Err.engine) := by
              simp [senderStep, senderHandleMsg, h1, hc, hsrd]
            rw [hst]
            refine ⟨?_, le_refl _, ?_⟩
            · intro p hp
              exact Or.inl ⟨p, mem_eraseK hp, rfl⟩
            · intro id2 t hmem
              exact absurd hmem (connect_not_mem_senderDisposeOuts _ _ _ _ _)
    | candidate id cand =>
      by_cases h1 : id = cfg.selfId
      · have hst : senderStep cfg eng s (SIn.msg (Msg.candidate id cand)) = (s, []) := by
          simp [senderStep, senderHandleMsg, h1]
        rw [hst]
        exact ⟨fun p hp => Or.inl ⟨p, hp, rfl⟩, le_refl _, fun id2 t h => absurd h (by simp)⟩
      · cases hc : lookupK id s.connections with
        | none =>
          have hst : senderStep cfg eng s (SIn.msg (Msg.candidate id cand))
              = ({ s with candidateQueues := setK id ((lookupK id s.candidateQueues).getD [] ++ [cand]) s.candidateQueues }, []) := by
            simp [senderStep, senderHandleMsg, h1, hc]
          rw [hst]
          exact ⟨fun p hp => Or.inl ⟨p, hp, rfl⟩, le_refl _, fun id2 t h => absurd h (by simp)⟩
        | some c =>
          have hst : senderStep cfg eng s (SIn.msg (Msg.candidate id cand))
              = (s, Out.applyCand c.token cand ::
                  (if eng.candOk cand then [] else [Out.evError id Err.engine])) := by
            simp [senderStep, senderHandleMsg, h1, hc]
          rw [hst]
          refine ⟨fun p hp => Or.inl ⟨p, hp, rfl⟩, le_refl _, ?_⟩
          intro id2 t hmem
          by_cases hok : eng.candOk cand <;> simp [hok] at hmem
    | offer id d =>
      exact ⟨fun p hp => Or.inl ⟨p, hp, rfl⟩, le_refl _,
        fun id2 t h => absurd h (List.not_mem_nil _)⟩
    | sync id st =>
      exact ⟨fun p hp => Or.inl ⟨p, hp, rfl⟩, le_refl _,
        fun id2 t h => absurd h (List.not_mem_nil _)⟩
    | dispose id =>
      exact ⟨fun p hp => Or.inl ⟨p, hp, rfl⟩, le_refl _,
        fun id2 t h => absurd h (List.not_mem_nil _)⟩
  | timerFire id tok =>
    cases hc : lookupK id s.connections with
    | none =>
      have hst : senderStep cfg eng s (SIn.timerFire id tok) = (s, []) := by
        simp [senderStep, hc]
      rw [hst]
      exact ⟨fun p hp => Or.inl ⟨p, hp, rfl⟩, le_refl _, fun id2 t h => absurd h (by simp)⟩
    | some c =>
      by_cases ht : c.token = tok
      · by_cases ha : c.timerArmed
        · have hst : senderStep cfg eng s (SIn.timerFire id tok)
              = senderDispose s id c (some Err.timeout) := by
            simp [senderStep, hc, ht, ha]
          rw [hst]
          refine ⟨?_, le_refl _, ?_⟩
          · intro p hp
            exact Or.inl ⟨p, mem_eraseK hp, rfl⟩
          · intro id2 t hmem
            exact absurd hmem (connect_not_mem_senderDisposeOuts _ _ _ _ _)
        · have hst : senderStep cfg eng s (SIn.timerFire id tok) = (s, []) := by
            simp [senderStep, hc, ht, ha]
          rw [hst]
          exact ⟨fun p hp => Or.inl ⟨p, hp, rfl⟩, le_refl _, fun id2 t h => absurd h (by simp)⟩
      · have hst : senderStep cfg eng s (SIn.timerFire id tok) = (s, []) := by
          simp [senderStep, hc, ht]
        rw [hst]
        exact ⟨fun p hp => Or.inl ⟨p, hp, rfl⟩, le_refl _, fun id2 t h => absurd h (by simp)⟩
  | ice id tok st =>
    cases hc : lookupK id s.connections with
    | none =>
      have hst : senderStep cfg eng s (SIn.ice id tok st) = (s, []) := by
        simp [senderStep, hc]
      rw [hst]
      exact ⟨fun p hp => Or.inl ⟨p, hp, rfl⟩, le_refl _, fun id2 t h => absurd h (by simp)⟩
    | some c =>
      by_cases ht : c.token = tok
      · cases st with
        | connected =>
          have hst : senderStep cfg eng s (SIn.ice id tok IceSt.connected)
              = ({ s with connections := setK id { c with timerArmed := false, connected := true } s.connections },
                 [Out.clearTimer tok, Out.evConnect id tok]) := by
            simp [senderStep, hc, ht]
          rw [hst]
          refine ⟨?_, le_refl _, ?_⟩
          · intro p hp
            rcases mem_setK hp with hpe | hp2
            · exact Or.inl ⟨(id, c), lookupK_mem hc, by rw [hpe]⟩
            · exact Or.inl ⟨p, hp2, rfl⟩
          · intro id2 t hmem
            simp at hmem
            rcases hmem with ⟨h2, h3⟩
            exact ⟨(id, c), lookupK_mem hc, by rw [h3, ht]⟩
        | disconnected =>
          have hst : senderStep cfg eng s (SIn.ice id tok IceSt.disconnected)
              = senderDispose s id c none := by
            simp [senderStep, hc, ht]
          rw [hst]
          refine ⟨?_, le_refl _, ?_⟩
          · intro p hp
            exact Or.inl ⟨p, mem_eraseK hp, rfl⟩
          · intro id2 t hmem
            exact absurd hmem (connect_not_mem_senderDisposeOuts _ _ _ _ _)
        | failed =>
          have hst : senderStep cfg eng s (SIn.ice id tok IceSt.failed)
              = senderDispose s id c (some Err.iceFailed) := by
            simp [senderStep, hc, ht]
          rw [hst]
          refine ⟨?_, le_refl _, ?_⟩
          · intro p hp
            exact Or.inl ⟨p, mem_eraseK hp, rfl⟩
          · intro id2 t hmem
            exact absurd hmem (connect_not_mem_senderDisposeOuts _ _ _ _ _)
      · have hst : senderStep cfg eng s (SIn.ice id tok st) = (s, []) := by
          cases st <;> simp [senderStep, hc, ht]
        rw [hst]
        exact ⟨fun p hp => Or.inl ⟨p, hp, rfl⟩, le_refl _, fun id2 t h => absurd h (by simp)⟩


theorem receiverStep_track (rcfg : RCfg) (eng : Engine) (r : RState) (i : RIn) :
    (∀ p ∈ (receiverStep rcfg eng r i).1.connections,
       (∃ q ∈ r.connections, q.2.token = p.2.token)
       ∨ (p.2.token = r.nextToken ∧ r.nextToken < (receiverStep rcfg eng r i).1.nextToken))
    ∧ r.nextToken ≤ (receiverStep rcfg eng r i).1.nextToken
    ∧ (∀ id2 t, Out.evConnect id2 t ∈ (receiverStep rcfg eng r i).2 →
        ∃ q ∈ r.connections, q.2.token = t) := by
  cases i with
  | msg m =>
    cases m with
    | invoke id cred =>
      by_cases h1 : id = rcfg.selfId
      · have hst : receiverStep rcfg eng r (RIn.msg (Msg.invoke id cred)) = (r, []) := by
          simp [receiverStep, receiverHandleMsg, h1]
        rw [hst]
        exact ⟨fun p hp => Or.inl ⟨p, hp, rfl⟩, le_refl _,
          fun id2 t h => absurd h (List.not_mem_nil _)⟩
      · by_cases hc : (lookupK id r.connections).isSome
        · have hst : receiverStep rcfg eng r (RIn.msg (Msg.invoke id cred)) = (r, []) := by
            simp [receiverStep, receiverHandleMsg, h1, hc]
          rw [hst]
          exact ⟨fun p hp => Or.inl ⟨p, hp, rfl⟩, le_refl _,
            fun id2 t h => absurd h (List.not_mem_nil _)⟩
        · have hst : receiverStep rcfg eng r (RIn.msg (Msg.invoke id cred))
              = (r, [Out.msgInvoke (some id)]) := by
            simp [receiverStep, receiverHandleMsg, h1, hc]
          rw [hst]
          refine ⟨fun p hp => Or.inl ⟨p, hp, rfl⟩, le_refl _, ?_⟩
          intro id2 t hmem
          simp at hmem
    | offer id d =>
      by_cases h1 : id = rcfg.selfId
      · have hst : receiverStep rcfg eng r (RIn.msg (Msg.offer id d)) = (r, []) := by
          simp [receiverStep, receiverHandleMsg, h1]
        rw [hst]
        exact ⟨fun p hp => Or.inl ⟨p, hp, rfl⟩, le_refl _,
          fun id2 t h => absurd h (List.not_mem_nil _)⟩
      · cases hc : lookupK id r.connections with
        | some c =>
          have hst : receiverStep rcfg eng r (RIn.msg (Msg.offer id d)) = (r, []) := by
            simp [receiverStep, receiverHandleMsg, h1, hc]
          rw [hst]
          exact ⟨fun p hp => Or.inl ⟨p, hp, rfl⟩, le_refl _,
            fun id2 t h => absurd h (List.not_mem_nil _)⟩
        | none =>
          rw [receiverStep_offerAdmit rcfg eng r id d h1 hc]
          by_cases hsrd : eng.srdOk d
          · cases hq : lookupK id r.candidateQueues with
            | none =>
              rw [receiverAdmit_nodrain rcfg eng r id d hsrd hq]
              refine ⟨?_, by simp, ?_⟩
              · intro p hp
                rcases mem_setK hp with hpe | hp2
                · right
                  rw [hpe]
                  exact ⟨rfl, by simp⟩
                · exact Or.inl ⟨p, hp2, rfl⟩
              · intro id2 t hmem
                rcases List.mem_append.mp hmem with h | h
                · exact absurd h (connect_not_mem_armOuts _ _ _ _ _)
                · simp at h
            | some q =>
              rw [receiverAdmit_drain rcfg eng r id d q hsrd hq]
              refine ⟨?_, by simp, ?_⟩
              · intro p hp
                rcases mem_setK hp with hpe | hp2
                · right
                  rw [hpe]
                  exact ⟨rfl, by simp⟩
                · exact Or.inl ⟨p, hp2, rfl⟩
              · intro id2 t hmem
                rcases List.mem_append.mp hmem with h | h
                · rcases List.mem_append.mp h with h2 | h2
                  · exact absurd h2 (connect_not_mem_armOuts _ _ _ _ _)
                  · exact absurd h2 (connect_not_mem_drainOuts _ _ _ _ _ _)
                · simp at h
          · have hst : receiverAdmit rcfg eng r id d
                = ({ r with connections := eraseK id (setK id { token := r.nextToken, timerArmed := decide (0 < rcfg.connectionTimeout), connected := false } r.connections), candidateQueues := r.candidateQueues, nextToken := r.nextToken + 1 },
                   (if decide (0 < rcfg.connectionTimeout) then [Out.armTimer id r.nextToken] else [])
                     ++ receiverDisposeOuts id { token := r.nextToken, timerArmed := decide (0 < rcfg.connectionTimeout), connected := false } (some Err.engine)) := by
              simp [receiverAdmit, hsrd, receiverDispose]
            rw [hst]
            refine ⟨?_, by simp, ?_⟩
            · intro p hp
              rcases mem_setK (mem_eraseK hp) with hpe | hp2
              · right
                rw [hpe]
                exact ⟨rfl, by simp⟩
              · exact Or.inl ⟨p, hp2, rfl⟩
            · intro id2 t hmem
              rcases List.mem_append.mp hmem with h | h
              · exact absurd h (connect_not_mem_armOuts _ _ _ _ _)
              · exact absurd h (connect_not_mem_receiverDisposeOuts _ _ _ _ _)
    | candidate id cand =>
      by_cases h1 : id = rcfg.selfId
      · have hst : receiverStep rcfg eng r (RIn.msg (Msg.candidate id cand)) = (r, []) := by
          simp [receiverStep, receiverHandleMsg, h1]
        rw [hst]
        exact ⟨fun p hp => Or.inl ⟨p, hp, rfl⟩, le_refl _,
          fun id2 t h => absurd h (List.not_mem_nil _)⟩
      · cases hc : lookupK id r.connections with
        | none =>
          have hst : receiverStep rcfg eng r (RIn.msg (Msg.candidate id cand))
              = ({ r with candidateQueues := setK id ((lookupK id r.candidateQueues).getD [] ++ [cand]) r.candidateQueues }, []) := by
            simp [receiverStep, receiverHandleMsg, h1, hc]
          rw [hst]
          exact ⟨fun p hp => Or.inl ⟨p, hp, rfl⟩, le_refl _,
            fun id2 t h => absurd h (List.not_mem_nil _)⟩
        | some c =>
          have hst : receiverStep rcfg eng r (RIn.msg (Msg.candidate id cand))
              = (r, Out.applyCand c.token cand ::
                  (if eng.candOk cand then [] else [Out.evError id Err.engine])) := by
            simp [receiverStep, receiverHandleMsg, h1, hc]
          rw [hst]
          refine ⟨fun p hp => Or.inl ⟨p, hp, rfl⟩, le_refl _, ?_⟩
          intro id2 t hmem
          by_cases hok : eng.candOk cand <;> simp [hok] at hmem
    | dispose id =>
      by_cases h1 : id = rcfg.selfId
      · have hst : receiverStep rcfg eng r (RIn.msg (Msg.dispose id)) = (r, []) := by
          simp [receiverStep, receiverHandleMsg, h1]
        rw [hst]
        exact ⟨fun p hp => Or.inl ⟨p, hp, rfl⟩, le_refl _,
          fun id2 t h => absurd h (List.not_mem_nil _)⟩
      · cases hc : lookupK id r.connections with
        | none =>
          have hst : receiverStep rcfg eng r (RIn.msg (Msg.dispose id)) = (r, []) := by
            simp [receiverStep, receiverHandleMsg, h1, hc]
          rw [hst]
          exact ⟨fun p hp => Or.inl ⟨p, hp, rfl⟩, le_refl _,
            fun id2 t h => absurd h (List.not_mem_nil _)⟩
        | some c =>
          have hst : receiverStep rcfg eng r (RIn.msg (Msg.dispose id))
              = receiverDispose r id c none := by
            simp [receiverStep, receiverHandleMsg, h1, hc]
          rw [hst]
          refine ⟨?_, le_refl _, ?_⟩
          · intro p hp
            exact Or.inl ⟨p, mem_eraseK hp, rfl⟩
          · intro id2 t hmem
            exact absurd hmem (connect_not_mem_receiverDisposeOuts _ _ _ _ _)
    | answer id d =>
      exact ⟨fun p hp => Or.inl ⟨p, hp, rfl⟩, le_refl _,
        fun id2 t h => absurd h (List.not_mem_nil _)⟩
    | sync id st =>
      exact ⟨fun p hp => Or.inl ⟨p, hp, rfl⟩, le_refl _,
        fun id2 t h => absurd h (List.not_mem_nil _)⟩
  | timerFire id tok =>
    cases hc : lookupK id r.connections with
    | none =>
      have hst : receiverStep rcfg eng r (RIn.timerFire id tok) = (r, []) := by
        simp [receiverStep, hc]
      rw [hst]
      exact ⟨fun p hp => Or.inl ⟨p, hp, rfl⟩, le_refl _,
        fun id2 t h => absurd h (List.not_mem_nil _)⟩
    | some c =>
      by_cases ht : c.token = tok
      · by_cases ha : c.timerArmed
        · have hst : receiverStep rcfg eng r (RIn.timerFire id tok)
              = receiverDispose r id c (some Err.timeout) := by
            simp [receiverStep, hc, ht, ha]
          rw [hst]
          refine ⟨?_, le_refl _, ?_⟩
          · intro p hp
            exact Or.inl ⟨p, mem_eraseK hp, rfl⟩
          · intro id2 t hmem
            exact absurd hmem (connect_not_mem_receiverDisposeOuts _ _ _ _ _)
        · have hst : receiverStep rcfg eng r (RIn.timerFire id tok) = (r, []) := by
            simp [receiverStep, hc, ht, ha]
          rw [hst]
          exact ⟨fun p hp => Or.inl ⟨p, hp, rfl⟩, le_refl _,
            fun id2 t h => absurd h (List.not_mem_nil _)⟩
      · have hst : receiverStep rcfg eng r (RIn.timerFire id tok) = (r, []) := by
          simp [receiverStep, hc, ht]
        rw [hst]
        exact ⟨fun p hp => Or.inl ⟨p, hp, rfl⟩, le_refl _,
          fun id2 t h => absurd h (List.not_mem_nil _)⟩
  | ice id tok st =>
    cases hc : lookupK id r.connections with
    | none =>
      have hst : receiverStep rcfg eng r (RIn.ice id tok st) = (r, []) := by
        simp [receiverStep, hc]
      rw [hst]
      exact ⟨fun p hp => Or.inl ⟨p, hp, rfl⟩, le_refl _,
        fun id2 t h => absurd h (List.not_mem_nil _)⟩
    | some c =>
      by_cases ht : c.token = tok
      · cases st with
        | connected =>
          have hst : receiverStep rcfg eng r (RIn.ice id tok IceSt.connected)
              = ({ r with connections := setK id { c with timerArmed := false, connected := true } r.connections },
                 [Out.clearTimer tok, Out.evConnect id tok]) := by
            simp [receiverStep, hc, ht]
          rw [hst]
          refine ⟨?_, le_refl _, ?_⟩
          · intro p hp
            rcases mem_setK hp with hpe | hp2
            · exact Or.inl ⟨(id, c), lookupK_mem hc, by rw [hpe]⟩
            · exact Or.inl ⟨p, hp2, rfl⟩
          · intro id2 t hmem
            simp at hmem
            rcases hmem with ⟨h2, h3⟩
            exact ⟨(id, c), lookupK_mem hc, by rw [h3, ht]⟩
        | disconnected =>
          have hst : receiverStep rcfg eng r (RIn.ice id tok IceSt.disconnected)
              = receiverDispose r id c none := by
            simp [receiverStep, hc, ht]
          rw [hst]
          refine ⟨?_, le_refl _, ?_⟩
          · intro p hp
            exact Or.inl ⟨p, mem_eraseK hp, rfl⟩
          · intro id2 t hmem
            exact absurd hmem (connect_not_mem_receiverDisposeOuts _ _ _ _ _)
        | failed =>
          have hst : receiverStep rcfg eng r (RIn.ice id tok IceSt.failed)
              = receiverDispose r id c (some Err.iceFailed) := by
            simp [receiverStep, hc, ht]
          rw [hst]
          refine ⟨?_, le_refl _, ?_⟩
          · intro p hp
            exact Or.inl ⟨p, mem_eraseK hp, rfl⟩
          · intro id2 t hmem
            exact absurd hmem (connect_not_mem_receiverDisposeOuts _ _ _ _ _)
      · have hst : receiverStep rcfg eng r (RIn.ice id tok st) = (r, []) := by
          cases st <;> simp [receiverStep, hc, ht]
        rw [hst]
        exact ⟨fun p hp => Or.inl ⟨p, hp, rfl⟩, le_refl _,
          fun id2 t h => absurd h (List.not_mem_nil _)⟩
  | pingTick =>
    have hstate : (receiverStep rcfg eng r RIn.pingTick).1.connections = r.connections := by
      simp only [receiverStep, receiverPingTick]
      split <;> split <;> rfl
    have hnext : (receiverStep rcfg eng r RIn.pingTick).1.nextToken = r.nextToken := by
      simp only [receiverStep, receiverPingTick]
      split <;> split <;> rfl
    refine ⟨?_, by rw [hnext], ?_⟩
    · intro p hp
      rw [hstate] at hp
      exact Or.inl ⟨p, hp, rfl⟩
    · intro id2 t hmem
      have : ∀ o ∈ (receiverStep rcfg eng r RIn.pingTick).2, o = Out.msgInvoke none := by
        intro o ho
        simp only [receiverStep, receiverPingTick] at ho
        rcases ho2 : ho with _
        revert ho
        split <;> split <;> simp
      have h2 := this _ hmem
      simp at h2


theorem senderRun_no_connectTok (cfg : SCfg) (eng : Engine) (t : Nat) :
    ∀ (ins : List SIn) (s : SState),
    t < s.nextToken → (∀ p ∈ s.connections, p.2.token ≠ t) →
    countP (isConnectTok t) (senderRun cfg eng s ins).2 = 0 := by
  intro ins
  induction ins with
  | nil =>
    intro s hlt hnot
    rfl
  | cons i rest ih =>
    intro s hlt hnot
    obtain ⟨htok, hmono, hconn⟩ := senderStep_track cfg eng s i
    have hstep0 : countP (isConnectTok t) (senderStep cfg eng s i).2 = 0 := by
      apply countP_eq_zero_of_forall
      intro o ho
      cases o with
      | evConnect id2 t2 =>
        obtain ⟨q, hq, hqt⟩ := hconn id2 t2 ho
        have hne : ¬t2 = t := by
          have h3 := hnot q hq
          omega
        simp [isConnectTok, hne]
      | msgInvoke dst => rfl
      | msgOffer dst => rfl
      | msgAnswer dst => rfl
      | msgDispose dst => rfl
      | evDispose i2 t2 e2 => rfl
      | evError i2 e2 => rfl
      | armTimer i2 t2 => rfl
      | clearTimer t2 => rfl
      | closeChannels t2 => rfl
      | closePeer t2 => rfl
      | applyCand t2 c2 => rfl
    have hlt2 : t < (senderStep cfg eng s i).1.nextToken := lt_of_lt_of_le hlt hmono
    have hnot2 : ∀ p ∈ (senderStep cfg eng s i).1.connections, p.2.token ≠ t := by
      intro p hp
      rcases htok p hp with ⟨q, hq, hqt⟩ | ⟨hpe, _⟩
      · rw [← hqt]
        exact hnot q hq
      · omega
    have hrest := ih (senderStep cfg eng s i).1 hlt2 hnot2
    simp only [senderRun]
    simp [hstep0, hrest]

theorem receiverRun_no_connectTok (rcfg : RCfg) (eng : Engine) (t : Nat) :
    ∀ (ins : List RIn) (r : RState),
    t < r.nextToken → (∀ p ∈ r.connections, p.2.token ≠ t) →
    countP (isConnectTok t) (receiverRun rcfg eng r ins).2 = 0 := by
  intro ins
  induction ins with
  | nil =>
    intro r hlt hnot
    rfl
  | cons i rest ih =>
    intro r hlt hnot
    obtain ⟨htok, hmono, hconn⟩ := receiverStep_track rcfg eng r i
    have hstep0 : countP (isConnectTok t) (receiverStep rcfg eng r i).2 = 0 := by
      apply countP_eq_zero_of_forall
      intro o ho
      cases o with
      | evConnect id2 t2 =>
        obtain ⟨q, hq, hqt⟩ := hconn id2 t2 ho
        have hne : ¬t2 = t := by
          have h3 := hnot q hq
          omega
        simp [isConnectTok, hne]
      | msgInvoke dst => rfl
      | msgOffer dst => rfl
      | msgAnswer dst => rfl
      | msgDispose dst => rfl
      | evDispose i2 t2 e2 => rfl
      | evError i2 e2 => rfl
      | armTimer i2 t2 => rfl
      | clearTimer t2 => rfl
      | closeChannels t2 => rfl
      | closePeer t2 => rfl
      | applyCand t2 c2 => rfl
    have hlt2 : t < (receiverStep rcfg eng r i).1.nextToken := lt_of_lt_of_le hlt hmono
    have hnot2 : ∀ p ∈ (receiverStep rcfg eng r i).1.connections, p.2.token ≠ t := by
      intro p hp
      rcases htok p hp with ⟨q, hq, hqt⟩ | ⟨hpe, _⟩
      · rw [← hqt]
        exact hnot q hq
      · omega
    have hrest := ih (receiverStep rcfg eng r i).1 hlt2 hnot2
    simp only [receiverRun]
    simp [hstep0, hrest]

/-- C3: when the connect timer of an admitted, not-yet-connected Connection
fires, the step performs exactly the dispose effect list with the timeout
error — containing exactly one `dispose` event for that peer id — and
removes the peer id from the registry; afterwards, along any continuation
of the trace, no `connect` event carrying that Connection's admission token
is ever emitted (the same peer id may only reconnect as a brand-new
Connection with a fresh token).  The uniqueness hypotheses say the fired
Connection's token was minted by this instance (below `nextToken`) and
belongs to no other registry entry, which holds in every reachable state. -/
theorem claim_C3 (cfg : SCfg) (rcfg : RCfg) (eng : Engine) (s : SState) (r : RState)
    (ids idr : PeerId) (cs : SConn) (cr : RConn)
    (hs : lookupK ids s.connections = some cs)
    (hsa : cs.timerArmed = true) (_hsc : cs.connected = false)
    (hsb : cs.token < s.nextToken)
    (hsu : ∀ p ∈ s.connections, p.2.token = cs.token → p.1 = ids)
    (hr : lookupK idr r.connections = some cr)
    (hra : cr.timerArmed = true) (_hrc : cr.connected = false)
    (hrb : cr.token < r.nextToken)
    (hru : ∀ p ∈ r.connections, p.2.token = cr.token → p.1 = idr) :
    senderStep cfg eng s (SIn.timerFire ids cs.token)
      = ({ s with connections := eraseK ids s.connections },
         senderDisposeOuts ids cs (some Err.timeout))
    ∧ countP (isEvDispose ids) (senderDisposeOuts ids cs (some Err.timeout)) = 1
    ∧ lookupK ids (senderStep cfg eng s (SIn.timerFire ids cs.token)).1.connections = none
    ∧ (∀ ins : List SIn, countP (isConnectTok cs.token)
        (senderRun cfg eng (senderStep cfg eng s (SIn.timerFire ids cs.token)).1 ins).2 = 0)
    ∧ receiverStep rcfg eng r (RIn.timerFire idr cr.token)
      = ({ r with connections := eraseK idr r.connections },
         receiverDisposeOuts idr cr (some Err.timeout))
    ∧ countP (isEvDispose idr) (receiverDisposeOuts idr cr (some Err.timeout)) = 1
    ∧ lookupK idr (receiverStep rcfg eng r (RIn.timerFire idr cr.token)).1.connections = none
    ∧ (∀ ins : List RIn, countP (isConnectTok cr.token)
        (receiverRun rcfg eng (receiverStep rcfg eng r (RIn.timerFire idr cr.token)).1 ins).2 = 0) := by
  have hstS : senderStep cfg eng s (SIn.timerFire ids cs.token)
      = ({ s with connections := eraseK ids s.connections },
         senderDisposeOuts ids cs (some Err.timeout)) := by
    simp [senderStep, hs, hsa, senderDispose]
  have hstR : receiverStep rcfg eng r (RIn.timerFire idr cr.token)
      = ({ r with connections := eraseK idr r.connections },
         receiverDisposeOuts idr cr (some Err.timeout)) := by
    simp [receiverStep, hr, hra, receiverDispose]
  refine ⟨hstS, ?_, ?_, ?_, hstR, ?_, ?_, ?_⟩
  · simp [senderDisposeOuts, countP, isEvDispose]
  · rw [hstS]
    simp
  · intro ins
    rw [hstS]
    refine senderRun_no_connectTok cfg eng cs.token ins _ hsb ?_
    intro p hp
    intro hpe
    exact absurd (hsu p (mem_eraseK hp) hpe) (mem_eraseK_ne hp)
  · simp [receiverDisposeOuts, countP, isEvDispose]
  · rw [hstR]
    simp
  · intro ins
    rw [hstR]
    refine receiverRun_no_connectTok rcfg eng cr.token ins _ hrb ?_
    intro p hp
    intro hpe
    exact absurd (hru p (mem_eraseK hp) hpe) (mem_eraseK_ne hp)

/-- C3 witness: a concrete timer expiry on an armed, unconnected connection
disposes with the timeout error; a subsequent engine connected report for
the stale token produces no connect event. -/
theorem claim_C3_witness :
    countP (isEvDispose 1) (senderDisposeOuts 1 sconnEx (some Err.timeout)) = 1
    ∧ lookupK 1 (senderStep cfgEx engEx sStateEx (SIn.timerFire 1 sconnEx.token)).1.connections = none
    ∧ countP (isConnectTok sconnEx.token)
        (senderRun cfgEx engEx (senderStep cfgEx engEx sStateEx (SIn.timerFire 1 sconnEx.token)).1
          [SIn.ice 1 sconnEx.token IceSt.connected]).2 = 0 := by
  have h := claim_C3 cfgEx rcfgEx engEx sStateEx rStateEx 1 1 sconnEx rconnEx
    (by decide) (by decide) (by decide) (by decide) (by decide)
    (by decide) (by decide) (by decide) (by decide) (by decide)
  exact ⟨h.2.1, h.2.2.1, h.2.2.2.1 [SIn.ice 1 sconnEx.token IceSt.connected]⟩

end P2P
